import Mathlib

/-!
# RPN calculator: shallow embedding of `src/rpn_calc.cpp`

Modelling conventions.

* A `double` is modelled by an exact rational number (`ℚ`): the arithmetic operators
  `+ - * /` are exact, there is no rounding, no infinity and no NaN.
* An `int` is modelled by a mathematical integer (`Int`), without the 32-bit bound. The
  model is that of the source where no `int` operation overflows and every converted
  value is in the range of `int`; the statements that depend on it carry that range as a
  hypothesis.
* `std::stack<double>` is a `List ℚ` whose head is the top of the stack;
  `std::vector<std::string>` is a `List String` that grows at its end.
* A C++ exception leaves the object as mutated so far: every member function is a
  function from the calculator state to an `Except` outcome paired with the state
  reached, also when the outcome is an error.
* The functions of the C/C++ standard library used by the program (`std::stod`,
  `std::to_string`, `sqrt`, `pow`, `sin`, `cos`, `tan`) are parameters, collected in
  `Libc`.
* Of `main`, the body of the loop is modelled (`mainLoopBody`): what one iteration does
  with the line it has read.
-/

namespace RPN

/-! ## Exceptions -/

/-- The `std::runtime_error`s thrown by the program. The constructor names are the
names the specification gives to the throw sites; `Error.what` is the message. -/
inductive Error where
  /-- Thrown by `pop` and `peek` on an empty stack. -/
  | StackUnderflow
  /-- Thrown by `/` when the divisor is zero. -/
  | DivisionByZero
  /-- Thrown by `sqrt`, `fibonacci` and `pascal` on invalid arguments, with its message. -/
  | DomainError (message : String)
  /-- Thrown by `calculate` on an operation that is none of the known names. -/
  | UnknownOperator (operation : String)
  /-- Thrown by `evaluate` when the stack is empty after the last token. -/
  | EmptyResult
  deriving DecidableEq, Repr

/-- Message of `sqrt` on a negative operand. -/
def sqrtMessage : String := "错误: 负数没有实数平方根"

/-- Message of `fibonacci` on a negative index. -/
def fibonacciMessage : String := "错误: 斐波那契数列索引必须非负"

/-- Message of `pascal` on invalid arguments. -/
def pascalMessage : String := "错误: 杨辉三角参数无效"

/-- The text carried by the exception (`e.what()`). -/
def Error.what : Error → String
  | .StackUnderflow => "错误: 栈为空"
  | .DivisionByZero => "错误: 除数不能为零"
  | .DomainError message => message
  | .UnknownOperator operation => "错误: 未知操作符 \x27" ++ operation ++ "\x27"
  | .EmptyResult => "错误: 表达式计算后栈为空"

/-- The failure is a `DomainError`, whatever its message. -/
def Error.isDomainError : Error → Bool
  | .DomainError _ => true
  | _ => false

/-! ## Standard library -/

/-- The functions of the C and C++ standard libraries called by the program. -/
structure Libc where
  /-- The call `std::stod(token, &pos)`: `none` when it throws, otherwise the value and `pos`,
  the number of characters of `token` it has consumed. -/
  stod : String → Option (ℚ × Nat)
  /-- The call `std::to_string(result)`. -/
  to_string : ℚ → String
  /-- The call `sqrt(a)`. -/
  sqrt : ℚ → ℚ
  /-- The call `pow(a, b)`. -/
  pow : ℚ → ℚ → ℚ
  /-- The call `sin(a)`. -/
  sin : ℚ → ℚ
  /-- The call `cos(a)`. -/
  cos : ℚ → ℚ
  /-- The call `tan(a)`. -/
  tan : ℚ → ℚ

/-- The conversion `static_cast<int>(a)`: truncation toward zero. In the source the
conversion is defined only when the truncated value is an `int`, that is for
`-2147483649 < a < 2147483648`; the model is the conversion of the source in that range,
and keeps the exact truncation outside it. -/
def static_cast_int (a : ℚ) : Int :=
  a.num.tdiv (a.den : Int)

/-! ## State -/

/-- What the member functions write to `std::cout`, one event per message. -/
inductive Output where
  /-- The message of `clear`. -/
  | cleared
  /-- The message of `display` on an empty stack. -/
  | stackEmpty
  /-- The line of `display` on a non-empty stack: the elements, in the order printed. -/
  | stackContents (elements : List ℚ)
  deriving DecidableEq, Repr

/-- The object `RPNCalculator`: `dataStack` (head = top), `history` (grows at the end),
and the events written to `std::cout` so far. -/
structure RPNCalculator where
  dataStack : List ℚ
  history : List String
  cout : List Output
  deriving DecidableEq, Repr

/-- A freshly constructed calculator. -/
def RPNCalculator.fresh : RPNCalculator :=
  { dataStack := [], history := [], cout := [] }

/-- A member function returning `α`: from the state to the outcome (a value or the
exception thrown) and the state reached. -/
def M (α : Type) : Type :=
  RPNCalculator → Except Error α × RPNCalculator

instance : Monad M where
  pure a := fun c => (.ok a, c)
  bind m f := fun c =>
    match m c with
    | (.ok a, c1) => f a c1
    | (.error e, c1) => (.error e, c1)

/-- The statement `throw std::runtime_error(...)`. -/
def raise {α : Type} (e : Error) : M α :=
  fun c => (.error e, c)

/-- A call of a function that may throw and does not touch the state. -/
def call {α : Type} (r : Except Error α) : M α :=
  fun c => (r, c)

/-! ## Counted loops -/

/-- The values taken by `i` in `for (int i = lo; i < hi; i++)`, in order. -/
def forRange (lo hi : Int) : List Int :=
  (List.range (hi - lo).toNat).map (fun (j : Nat) => lo + (j : Int))

/-! ## `fibonacci` and `pascal` -/

/-- Body of the loop of `fibonacci`: `temp = a + b; a = b; b = temp`. -/
def fibonacciStep (ab : ℚ × ℚ) (_i : Int) : ℚ × ℚ :=
  (ab.2, ab.1 + ab.2)

/-- The function `RPNCalculator::fibonacci`. The counter `i` of the loop is an exact
integer: the model is the loop of the source as long as `i++` does not overflow, that is
for `n < 2147483647`; at `n = 2147483647` the test `i <= n` of the source cannot fail and
`i++` overflows. -/
def fibonacci (n : Int) : Except Error ℚ :=
  if n < 0 then .error (.DomainError fibonacciMessage)
  else if n = 0 then .ok 0
  else if n = 1 then .ok 1
  else
    -- for (int i = 2; i <= n; i++)
    .ok ((forRange 2 (n + 1)).foldl fibonacciStep (0, 1)).2

/-- Body of the loop of `pascal`: `result = result * (n - i) / (i + 1)`. -/
def pascalStep (n : Int) (result : ℚ) (i : Int) : ℚ :=
  result * ((n - i : Int) : ℚ) / ((i + 1 : Int) : ℚ)

/-- The function `RPNCalculator::pascal`. -/
def pascal (n k : Int) : Except Error ℚ :=
  if n < 0 ∨ k < 0 ∨ k > n then .error (.DomainError pascalMessage)
  else
    let k := if k > n - k then n - k else k
    -- for (int i = 0; i < k; i++)
    .ok ((forRange 0 k).foldl (pascalStep n) 1)

/-- The Fibonacci numbers by their recurrence: `F 0 = 0`, `F 1 = 1`,
`F (m + 2) = F (m + 1) + F m`. -/
def fibSpec : Nat → Nat
  | 0 => 0
  | 1 => 1
  | m + 2 => fibSpec (m + 1) + fibSpec m

/-! ## Stack primitives -/

/-- The function `RPNCalculator::push`. -/
def push (value : ℚ) : M Unit :=
  fun c => (.ok (), { c with dataStack := value :: c.dataStack })

/-- The function `RPNCalculator::pop`. -/
def pop : M ℚ :=
  fun c =>
    match c.dataStack with
    | [] => (.error .StackUnderflow, c)
    | value :: rest => (.ok value, { c with dataStack := rest })

/-- The function `RPNCalculator::peek`. -/
def peek : M ℚ :=
  fun c =>
    match c.dataStack with
    | [] => (.error .StackUnderflow, c)
    | value :: _ => (.ok value, c)

/-- The loop of `clear`: `while (!dataStack.empty()) dataStack.pop();`. -/
def clearLoop : List ℚ → List ℚ
  | [] => []
  | _ :: rest => clearLoop rest

/-- The function `RPNCalculator::clear`. -/
def clear : M Unit :=
  fun c => (.ok (), { c with dataStack := clearLoop c.dataStack, cout := c.cout ++ [.cleared] })

/-- The loop of `display` over the copy `temp`:
`while (!temp.empty()) { elements.push_back(temp.top()); temp.pop(); }`. -/
def displayLoop : List ℚ → List ℚ → List ℚ
  | [], elements => elements
  | top :: temp, elements => displayLoop temp (elements ++ [top])

/-- The function `RPNCalculator::display`. -/
def display : M Unit :=
  fun c =>
    if c.dataStack.isEmpty then
      (.ok (), { c with cout := c.cout ++ [.stackEmpty] })
    else
      let temp := c.dataStack
      let elements := displayLoop temp []
      (.ok (), { c with cout := c.cout ++ [.stackContents elements] })

/-- The function `RPNCalculator::size`. -/
def size (c : RPNCalculator) : Nat :=
  c.dataStack.length

/-- The function `RPNCalculator::showHistory`: the numbered lines it prints, `none` for
the message printed when the history is empty. -/
def showHistory (c : RPNCalculator) : Option (List (Nat × String)) :=
  if c.history.isEmpty then none
  else some ((List.range c.history.length).zipWith (fun i entry => (i + 1, entry)) c.history)

/-! ## Operators -/

/-- The function `RPNCalculator::calculate`. -/
def calculate (L : Libc) (operation : String) : M Unit :=
  if operation = "+" then do
    let b ← pop
    let a ← pop
    push (a + b)
  else if operation = "-" then do
    let b ← pop
    let a ← pop
    push (a - b)
  else if operation = "*" then do
    let b ← pop
    let a ← pop
    push (a * b)
  else if operation = "/" then do
    let b ← pop
    if b = 0 then
      raise .DivisionByZero
    else do
      let a ← pop
      push (a / b)
  else if operation = "sqrt" then do
    let a ← pop
    if a < 0 then
      raise (.DomainError sqrtMessage)
    else
      push (L.sqrt a)
  else if operation = "pow" then do
    let b ← pop
    let a ← pop
    push (L.pow a b)
  else if operation = "sin" then do
    let a ← pop
    push (L.sin a)
  else if operation = "cos" then do
    let a ← pop
    push (L.cos a)
  else if operation = "tan" then do
    let a ← pop
    push (L.tan a)
  else if operation = "fib" then do
    let a ← pop
    let n := static_cast_int a
    let r ← call (fibonacci n)
    push r
  else if operation = "pascal" then do
    let k ← pop
    let n ← pop
    let r ← call (pascal (static_cast_int n) (static_cast_int k))
    push r
  else
    raise (.UnknownOperator operation)

/-! ## Tokens -/

/-- The whitespace characters skipped by `iss >> token` (the classic locale):
space, `\t`, `\n`, `\v`, `\f`, `\r`. -/
def isspace (ch : Char) : Bool :=
  ch.toNat = 32 || (9 ≤ ch.toNat && ch.toNat ≤ 13)

/-- The tokens that the successive extractions `iss >> token` read from the characters
left in the stream: the maximal runs of non-whitespace characters, in order. The
second argument is the token being read. -/
def tokensAux : List Char → List Char → List String
  | [], token => if token = [] then [] else [String.mk token]
  | ch :: rest, token =>
    if isspace ch then
      if token = [] then tokensAux rest [] else String.mk token :: tokensAux rest []
    else tokensAux rest (token ++ [ch])

/-- The tokens of a line, in the order `while (iss >> token)` yields them. -/
def tokens (expression : String) : List String :=
  tokensAux expression.toList []

/-! ## `evaluate` -/

/-- The `try` block at the head of the loop of `evaluate`: the value to push when `std::stod`
does not throw and has consumed the whole token, `none` otherwise. -/
def parseNumber (L : Libc) (token : String) : Option ℚ :=
  match L.stod token with
  | some (value, pos) => if pos = token.utf8ByteSize then some value else none
  | none => none

/-- The body of the loop of `evaluate` for one token. -/
def evaluateToken (L : Libc) (token : String) : M Unit :=
  match parseNumber L token with
  | some value => push value
  | none =>
    if token = "clear" then clear
    else if token = "display" then display
    else calculate L token

/-- The loop `while (iss >> token)` of `evaluate`, over the tokens of the line. -/
def evaluateLoop (L : Libc) : List String → M Unit
  | [] => pure ()
  | token :: rest => do
    evaluateToken L token
    evaluateLoop L rest

/-- The test `dataStack.empty()`. -/
def empty : M Bool :=
  fun c => (.ok c.dataStack.isEmpty, c)

/-- The statement `history.push_back(entry)`. -/
def history_push_back (entry : String) : M Unit :=
  fun c => (.ok (), { c with history := c.history ++ [entry] })

/-- The function `RPNCalculator::evaluate`. -/
def evaluate (L : Libc) (expression : String) : M ℚ := do
  evaluateLoop L (tokens expression)
  if (← empty) then
    raise .EmptyResult
  else do
    let result ← peek
    history_push_back (expression ++ " = " ++ L.to_string result)
    pure result

/-- A session: `evaluate` called on each line in turn, every exception caught by the
caller (as the loop of `main` does). The outcomes of the calls, in order, and the
state reached. -/
def evaluateAll (L : Libc) : List String → RPNCalculator → List (Except Error ℚ) × RPNCalculator
  | [], c => ([], c)
  | line :: rest, c =>
    let r := evaluate L line c
    let rs := evaluateAll L rest r.2
    (r.1 :: rs.1, rs.2)


/-! ## The loop of `main` -/

/-- The value `std::string::npos`. -/
def npos : Nat := 18446744073709551615

/-- The call `input.find_first_not_of(chars)`, scanning from index `i`: the index of the
first character that is not in `chars`, `npos` when there is none. -/
def find_first_not_of (chars : List Char) : List Char → Nat → Nat
  | [], _ => npos
  | ch :: rest, i => if ch ∈ chars then find_first_not_of chars rest (i + 1) else i

/-- The call `input.find_last_not_of(chars)`, scanning from index `i` with `found` the
last index found so far: the index of the last character that is not in `chars`, `npos`
when there is none. -/
def find_last_not_of (chars : List Char) : List Char → Nat → Nat → Nat
  | [], _, found => found
  | ch :: rest, i, found =>
    if ch ∈ chars then find_last_not_of chars rest (i + 1) found
    else find_last_not_of chars rest (i + 1) i

/-- What one iteration of the loop of `main` does with the line it has read. -/
inductive MainStep where
  /-- The iteration ends at a `continue` before anything is run: the line is blank. -/
  | skipped
  /-- The commands `q`, `quit`, `exit`: the loop ends. -/
  | quit
  /-- The commands `help`, `h`. -/
  | help
  /-- The command `history`, with what `showHistory` prints. -/
  | history (lines : Option (List (Nat × String)))
  /-- The call `evaluate` has returned: the result is printed. -/
  | result (value : ℚ)
  /-- The call `evaluate` has thrown: the message is printed on `std::cerr`. -/
  | failure (what : String)
  deriving DecidableEq, Repr

/-- The body of the loop `while (true)` of `main` on the line `input` read by
`std::getline`: the line is trimmed of the characters `" \t\n\r"`, a blank line is
skipped, the commands are recognised, and any other line is given to `evaluate`. -/
def mainLoopBody (L : Libc) (input : String) (c : RPNCalculator) : MainStep × RPNCalculator :=
  let start := find_first_not_of " \t\n\r".toList input.toList 0
  let last := find_last_not_of " \t\n\r".toList input.toList 0 npos
  if start = npos then (.skipped, c)
  else
    let input := String.mk ((input.toList.drop start).take (last - start + 1))
    if input = "q" ∨ input = "quit" ∨ input = "exit" then (.quit, c)
    else if input = "help" ∨ input = "h" then (.help, c)
    else if input = "history" then (.history (showHistory c), c)
    else if input.isEmpty then (.skipped, c)
    else
      match evaluate L input c with
      | (.ok result, c1) => (.result result, c1)
      | (.error e, c1) => (.failure e.what, c1)

/-! ## A concrete standard library

The theorems about the calculator hold for every `Libc`. To run the calculator on
concrete lines, `decimalLibc` supplies one: `std::stod` on the decimal forms of a
floating-point literal, with its exact rational value, and rational approximations of
the other functions. -/

/-- The value of a run of decimal digits. -/
def digitsValue (digits : List Char) : Nat :=
  digits.foldl (fun acc d => 10 * acc + (d.toNat - 48)) 0

/-- The exponent part of a decimal literal at the head of `s`: the exponent and the
number of characters it takes (`e` or `E`, an optional sign, at least one digit);
`(0, 0)` when there is no complete exponent part. -/
def stodExponent (s : List Char) : Int × Nat :=
  match s with
  | [] => (0, 0)
  | e :: r =>
    if e = 'e' ∨ e = 'E' then
      match r with
      | [] => (0, 0)
      | sign :: r1 =>
        if sign = '-' then
          let ds := r1.takeWhile Char.isDigit
          if ds = [] then (0, 0) else (-(digitsValue ds : Int), 2 + ds.length)
        else if sign = '+' then
          let ds := r1.takeWhile Char.isDigit
          if ds = [] then (0, 0) else ((digitsValue ds : Int), 2 + ds.length)
        else
          let ds := r.takeWhile Char.isDigit
          if ds = [] then (0, 0) else ((digitsValue ds : Int), 1 + ds.length)
    else (0, 0)

/-- The digits and point of a decimal literal at the head of `s` (the sign already
read), with its exponent part: the value of its digits (the point left out), the number
of digits after the point, the exponent, and the number of characters it takes; `none`
when there is no digit. -/
def stodUnsigned (s : List Char) : Option (Nat × Nat × Int × Nat) :=
  let ip := s.takeWhile Char.isDigit
  let s1 := s.drop ip.length
  let fp := match s1 with
    | [] => []
    | p :: r => if p = '.' then r.takeWhile Char.isDigit else []
  let pointLength := match s1 with
    | [] => 0
    | p :: _ => if p = '.' then 1 else 0
  if ip = [] ∧ fp = [] then none
  else
    let s2 := s1.drop (pointLength + fp.length)
    let ex := stodExponent s2
    some (digitsValue (ip ++ fp), fp.length, ex.1, ip.length + pointLength + fp.length + ex.2)

/-- The sign of a decimal literal: whether the token starts with `-`, and what follows
the sign (the whole token when it has none). -/
def stodSign (s : List Char) : Bool × List Char :=
  match s with
  | [] => (false, [])
  | sign :: r =>
    if sign = '-' then (true, r)
    else if sign = '+' then (false, r)
    else (false, sign :: r)

/-- The call `std::stod(token, &pos)` on the decimal forms: an optional sign, digits with
an optional point, an optional exponent; the longest such prefix of the token is
converted, to its exact value, and the call throws (`none`) when there is none. Unlike
`std::stod` it does not convert the hexadecimal forms, `inf` and `nan`, and it puts no
bound on the magnitude of the value. -/
def stodDecimal (token : String) : Option (ℚ × Nat) :=
  let sr := stodSign token.toList
  match stodUnsigned sr.2 with
  | none => none
  | some (digits, fractionLength, exponent, taken) =>
    let value : ℚ := (digits : ℚ) / 10 ^ fractionLength * 10 ^ exponent
    some (if sr.1 then -value else value, (token.toList.length - sr.2.length) + taken)

/-- The call `std::to_string(result)`: fixed notation with six decimals, the last one
rounded to nearest (ties to even). -/
def to_stringFixed (a : ℚ) : String :=
  let exact := |a| * 1000000
  let below := exact.floor.toNat
  let rest := exact - (below : ℚ)
  let scaled := if rest > 1 / 2 ∨ (rest = 1 / 2 ∧ below % 2 = 1) then below + 1 else below
  let frac := toString (scaled % 1000000)
  (if a < 0 then "-" else "") ++ toString (scaled / 1000000) ++ "." ++
    String.mk (List.replicate (6 - frac.length) '0') ++ frac

/-- A concrete `Libc`: decimal `std::stod`, fixed-notation `std::to_string`, and rational
approximations of `sqrt` (Newton steps), `pow` (the exponent truncated to an integer) and
`sin`, `cos`, `tan` (Taylor polynomials). -/
def decimalLibc : Libc where
  stod := stodDecimal
  to_string := to_stringFixed
  sqrt := fun a => Nat.iterate (fun x => (x + a / x) / 2) 6 ((a + 1) / 2)
  pow := fun a b => a ^ static_cast_int b
  sin := fun a => a - a ^ 3 / 6 + a ^ 5 / 120
  cos := fun a => 1 - a ^ 2 / 2 + a ^ 4 / 24
  tan := fun a => (a - a ^ 3 / 6 + a ^ 5 / 120) / (1 - a ^ 2 / 2 + a ^ 4 / 24)


/-! ## Counted loops: lemmas -/

theorem forRange_zero_natCast (j : Nat) :
    forRange 0 (j : Int) = (List.range j).map (fun (i : Nat) => (i : Int)) := by
  simp [forRange]

theorem forRange_zero_succ (j : Nat) :
    forRange 0 ((j + 1 : Nat) : Int) = forRange 0 (j : Int) ++ [(j : Int)] := by
  rw [forRange_zero_natCast, forRange_zero_natCast, List.range_succ, List.map_append]
  rfl

theorem forRange_length (lo hi : Int) : (forRange lo hi).length = (hi - lo).toNat := by
  simp [forRange]

theorem prefix_forRange_zero (j : Nat) (p : List Int) (h : p <+: forRange 0 (j : Int)) :
    p = forRange 0 (p.length : Int) ∧ p.length ≤ j := by
  have hlen : p.length ≤ j := by
    have := h.length_le
    simpa [forRange_length] using this
  refine ⟨?_, hlen⟩
  have h1 := List.prefix_iff_eq_take.mp h
  rw [forRange_zero_natCast] at h1 ⊢
  rw [h1, ← List.map_take, List.take_range]
  simp [forRange_zero_natCast, hlen]

/-! ## `pascal`: lemmas -/

/-- After `j` iterations (`j ≤ n`) the accumulator of `pascal` holds `C(n, j)`. -/
theorem pascal_loop_eq_choose (n j : Nat) (h : j ≤ n) :
    (forRange 0 (j : Int)).foldl (pascalStep (n : Int)) 1 = (Nat.choose n j : ℚ) := by
  induction j with
  | zero => simp [forRange]
  | succ j ih =>
    rw [forRange_zero_succ, List.foldl_append, ih (by omega)]
    simp only [List.foldl_cons, List.foldl_nil, pascalStep]
    have hrec := Nat.choose_succ_right_eq n j
    have hq : (Nat.choose n (j + 1) : ℚ) * ((j : ℚ) + 1) = (Nat.choose n j : ℚ) * ((n : ℚ) - (j : ℚ)) := by
      have := congrArg (fun x : Nat => (x : ℚ)) hrec
      simp only [Nat.cast_mul, Nat.cast_add, Nat.cast_one] at this
      rw [this, Nat.cast_sub (by omega)]
    have hpos : ((j : ℚ) + 1) ≠ 0 := by positivity
    push_cast
    rw [← hq]
    field_simp

/-- The iteration count chosen by `pascal`: `k` or `n - k`, whichever is smaller. -/
theorem pascal_bound_symm (n k : Int) :
    (if n - k > n - (n - k) then n - (n - k) else n - k) = (if k > n - k then n - k else k) := by
  split_ifs <;> omega

/-! ## `fibonacci`: lemmas -/

/-- The loop of `fibonacci` moves a pair of consecutive Fibonacci numbers forward by
one index per iteration. -/
theorem fibonacci_loop (l : List Int) (j : Nat) :
    l.foldl fibonacciStep ((fibSpec j : ℚ), (fibSpec (j + 1) : ℚ)) =
      ((fibSpec (j + l.length) : ℚ), (fibSpec (j + l.length + 1) : ℚ)) := by
  induction l generalizing j with
  | nil => simp
  | cons i l ih =>
    have hstep : fibonacciStep ((fibSpec j : ℚ), (fibSpec (j + 1) : ℚ)) i =
        ((fibSpec (j + 1) : ℚ), (fibSpec (j + 1 + 1) : ℚ)) := by
      simp [fibonacciStep, fibSpec]
      ring
    rw [List.foldl_cons, hstep, ih (j + 1)]
    simp only [List.length_cons]
    have : j + 1 + l.length = j + (l.length + 1) := by omega
    rw [this]

/-! ## Member functions: unfolding lemmas -/

theorem bind_apply {α β : Type} (m : M α) (f : α → M β) (c : RPNCalculator) :
    (m >>= f) c =
      match m c with
      | (.ok a, c1) => f a c1
      | (.error e, c1) => (.error e, c1) := rfl

theorem pure_apply {α : Type} (a : α) (c : RPNCalculator) :
    (pure a : M α) c = (.ok a, c) := rfl

theorem raise_apply {α : Type} (e : Error) (c : RPNCalculator) :
    (raise e : M α) c = (.error e, c) := rfl

theorem call_apply {α : Type} (r : Except Error α) (c : RPNCalculator) :
    (call r : M α) c = (r, c) := rfl

theorem push_apply (value : ℚ) (s : List ℚ) (h : List String) (o : List Output) :
    push value ⟨s, h, o⟩ = (.ok (), ⟨value :: s, h, o⟩) := rfl

theorem pop_cons (value : ℚ) (rest : List ℚ) (h : List String) (o : List Output) :
    pop ⟨value :: rest, h, o⟩ = (.ok value, ⟨rest, h, o⟩) := rfl

theorem pop_nil (h : List String) (o : List Output) :
    pop ⟨[], h, o⟩ = (.error .StackUnderflow, ⟨[], h, o⟩) := rfl

theorem peek_cons (value : ℚ) (rest : List ℚ) (h : List String) (o : List Output) :
    peek ⟨value :: rest, h, o⟩ = (.ok value, ⟨value :: rest, h, o⟩) := rfl

theorem peek_nil (h : List String) (o : List Output) :
    peek ⟨[], h, o⟩ = (.error .StackUnderflow, ⟨[], h, o⟩) := rfl

theorem empty_apply (s : List ℚ) (h : List String) (o : List Output) :
    empty ⟨s, h, o⟩ = (.ok s.isEmpty, ⟨s, h, o⟩) := rfl

theorem history_push_back_apply (entry : String) (s : List ℚ) (h : List String)
    (o : List Output) :
    history_push_back entry ⟨s, h, o⟩ = (.ok (), ⟨s, h ++ [entry], o⟩) := rfl

theorem clearLoop_eq_nil (s : List ℚ) : clearLoop s = [] := by
  induction s with
  | nil => rfl
  | cons _ rest ih => simpa [clearLoop] using ih

theorem clear_apply (s : List ℚ) (h : List String) (o : List Output) :
    clear ⟨s, h, o⟩ = (.ok (), ⟨[], h, o ++ [.cleared]⟩) := by
  simp [clear, clearLoop_eq_nil]

theorem evaluateLoop_nil (L : Libc) (c : RPNCalculator) :
    evaluateLoop L [] c = (.ok (), c) := rfl

theorem evaluateLoop_cons (L : Libc) (token : String) (rest : List String) (c : RPNCalculator) :
    evaluateLoop L (token :: rest) c =
      match evaluateToken L token c with
      | (.ok _, c1) => evaluateLoop L rest c1
      | (.error e, c1) => (.error e, c1) := by
  rw [evaluateLoop, bind_apply]
  rcases evaluateToken L token c with ⟨_ | _, _⟩ <;> rfl

/-- The loop of `evaluate` over `pre ++ post` runs `pre`, then `post` from the state
reached, and stops at the first exception. -/
theorem evaluateLoop_append (L : Libc) (pre post : List String) (c : RPNCalculator) :
    evaluateLoop L (pre ++ post) c =
      match evaluateLoop L pre c with
      | (.ok _, c1) => evaluateLoop L post c1
      | (.error e, c1) => (.error e, c1) := by
  induction pre generalizing c with
  | nil => rfl
  | cons token pre ih =>
    rw [List.cons_append, evaluateLoop_cons, evaluateLoop_cons]
    rcases hstep : evaluateToken L token c with ⟨r, c1⟩
    cases r with
    | error e => rfl
    | ok u => exact ih c1

/-- When the loop of `evaluate` throws, `evaluate` throws the same exception from the
same state. -/
theorem evaluate_of_loop_error (L : Libc) (expression : String) (c c1 : RPNCalculator)
    (e : Error) (h : evaluateLoop L (tokens expression) c = (.error e, c1)) :
    evaluate L expression c = (.error e, c1) := by
  simp [evaluate, bind_apply, h]

/-- When the loop of `evaluate` ends on an empty stack, `evaluate` throws `EmptyResult`. -/
theorem evaluate_of_loop_ok_nil (L : Libc) (expression : String) (c : RPNCalculator)
    (h : List String) (o : List Output)
    (hloop : evaluateLoop L (tokens expression) c = (.ok (), ⟨[], h, o⟩)) :
    evaluate L expression c = (.error .EmptyResult, ⟨[], h, o⟩) := by
  simp [evaluate, bind_apply, hloop, empty_apply, raise_apply]

/-- When the loop of `evaluate` ends on a non-empty stack, `evaluate` returns its top and
appends the entry to the history. -/
theorem evaluate_of_loop_ok_cons (L : Libc) (expression : String) (c : RPNCalculator)
    (value : ℚ) (rest : List ℚ) (h : List String) (o : List Output)
    (hloop : evaluateLoop L (tokens expression) c = (.ok (), ⟨value :: rest, h, o⟩)) :
    evaluate L expression c =
      (.ok value, ⟨value :: rest, h ++ [expression ++ " = " ++ L.to_string value], o⟩) := by
  simp [evaluate, bind_apply, hloop, empty_apply, peek_cons, history_push_back_apply, pure_apply]

/-! ## `calculate`: the effect of each operator on the stack -/

theorem calculate_add (L : Libc) (s : List ℚ) (h : List String) (o : List Output) :
    calculate L "+" ⟨s, h, o⟩ =
      match s with
      | b :: a :: rest => (.ok (), ⟨(a + b) :: rest, h, o⟩)
      | [_] => (.error .StackUnderflow, ⟨[], h, o⟩)
      | [] => (.error .StackUnderflow, ⟨[], h, o⟩) := by
  rcases s with _ | ⟨x, _ | ⟨y, rest⟩⟩ <;>
    simp [calculate, bind_apply, pop_nil, pop_cons, push_apply]

theorem calculate_sub (L : Libc) (s : List ℚ) (h : List String) (o : List Output) :
    calculate L "-" ⟨s, h, o⟩ =
      match s with
      | b :: a :: rest => (.ok (), ⟨(a - b) :: rest, h, o⟩)
      | [_] => (.error .StackUnderflow, ⟨[], h, o⟩)
      | [] => (.error .StackUnderflow, ⟨[], h, o⟩) := by
  rcases s with _ | ⟨x, _ | ⟨y, rest⟩⟩ <;>
    simp [calculate, bind_apply, pop_nil, pop_cons, push_apply]

theorem calculate_mul (L : Libc) (s : List ℚ) (h : List String) (o : List Output) :
    calculate L "*" ⟨s, h, o⟩ =
      match s with
      | b :: a :: rest => (.ok (), ⟨(a * b) :: rest, h, o⟩)
      | [_] => (.error .StackUnderflow, ⟨[], h, o⟩)
      | [] => (.error .StackUnderflow, ⟨[], h, o⟩) := by
  rcases s with _ | ⟨x, _ | ⟨y, rest⟩⟩ <;>
    simp [calculate, bind_apply, pop_nil, pop_cons, push_apply]

theorem calculate_div (L : Libc) (s : List ℚ) (h : List String) (o : List Output) :
    calculate L "/" ⟨s, h, o⟩ =
      match s with
      | b :: a :: rest =>
        if b = 0 then (.error .DivisionByZero, ⟨a :: rest, h, o⟩)
        else (.ok (), ⟨(a / b) :: rest, h, o⟩)
      | [b] =>
        if b = 0 then (.error .DivisionByZero, ⟨[], h, o⟩)
        else (.error .StackUnderflow, ⟨[], h, o⟩)
      | [] => (.error .StackUnderflow, ⟨[], h, o⟩) := by
  rcases s with _ | ⟨x, _ | ⟨y, rest⟩⟩
  · simp [calculate, bind_apply, pop_nil]
  · by_cases hx : x = 0 <;>
      simp [calculate, bind_apply, pop_nil, pop_cons, raise_apply, hx]
  · by_cases hx : x = 0 <;>
      simp [calculate, bind_apply, pop_cons, raise_apply, push_apply, hx]

theorem calculate_sqrt (L : Libc) (s : List ℚ) (h : List String) (o : List Output) :
    calculate L "sqrt" ⟨s, h, o⟩ =
      match s with
      | a :: rest =>
        if a < 0 then (.error (.DomainError sqrtMessage), ⟨rest, h, o⟩)
        else (.ok (), ⟨L.sqrt a :: rest, h, o⟩)
      | [] => (.error .StackUnderflow, ⟨[], h, o⟩) := by
  rcases s with _ | ⟨x, rest⟩
  · simp [calculate, bind_apply, pop_nil]
  · by_cases hx : x < 0 <;>
      simp [calculate, bind_apply, pop_cons, raise_apply, push_apply, hx]

theorem calculate_pow (L : Libc) (s : List ℚ) (h : List String) (o : List Output) :
    calculate L "pow" ⟨s, h, o⟩ =
      match s with
      | b :: a :: rest => (.ok (), ⟨L.pow a b :: rest, h, o⟩)
      | [_] => (.error .StackUnderflow, ⟨[], h, o⟩)
      | [] => (.error .StackUnderflow, ⟨[], h, o⟩) := by
  rcases s with _ | ⟨x, _ | ⟨y, rest⟩⟩ <;>
    simp [calculate, bind_apply, pop_nil, pop_cons, push_apply]

theorem calculate_sin (L : Libc) (s : List ℚ) (h : List String) (o : List Output) :
    calculate L "sin" ⟨s, h, o⟩ =
      match s with
      | a :: rest => (.ok (), ⟨L.sin a :: rest, h, o⟩)
      | [] => (.error .StackUnderflow, ⟨[], h, o⟩) := by
  rcases s with _ | ⟨x, rest⟩ <;>
    simp [calculate, bind_apply, pop_nil, pop_cons, push_apply]

theorem calculate_cos (L : Libc) (s : List ℚ) (h : List String) (o : List Output) :
    calculate L "cos" ⟨s, h, o⟩ =
      match s with
      | a :: rest => (.ok (), ⟨L.cos a :: rest, h, o⟩)
      | [] => (.error .StackUnderflow, ⟨[], h, o⟩) := by
  rcases s with _ | ⟨x, rest⟩ <;>
    simp [calculate, bind_apply, pop_nil, pop_cons, push_apply]

theorem calculate_tan (L : Libc) (s : List ℚ) (h : List String) (o : List Output) :
    calculate L "tan" ⟨s, h, o⟩ =
      match s with
      | a :: rest => (.ok (), ⟨L.tan a :: rest, h, o⟩)
      | [] => (.error .StackUnderflow, ⟨[], h, o⟩) := by
  rcases s with _ | ⟨x, rest⟩ <;>
    simp [calculate, bind_apply, pop_nil, pop_cons, push_apply]

theorem calculate_fib (L : Libc) (s : List ℚ) (h : List String) (o : List Output) :
    calculate L "fib" ⟨s, h, o⟩ =
      match s with
      | a :: rest =>
        match fibonacci (static_cast_int a) with
        | .ok r => (.ok (), ⟨r :: rest, h, o⟩)
        | .error e => (.error e, ⟨rest, h, o⟩)
      | [] => (.error .StackUnderflow, ⟨[], h, o⟩) := by
  rcases s with _ | ⟨x, rest⟩
  · simp [calculate, bind_apply, pop_nil]
  · cases hr : fibonacci (static_cast_int x) <;>
      simp [calculate, bind_apply, pop_cons, call_apply, push_apply, hr]

theorem calculate_pascal (L : Libc) (s : List ℚ) (h : List String) (o : List Output) :
    calculate L "pascal" ⟨s, h, o⟩ =
      match s with
      | k :: n :: rest =>
        match pascal (static_cast_int n) (static_cast_int k) with
        | .ok r => (.ok (), ⟨r :: rest, h, o⟩)
        | .error e => (.error e, ⟨rest, h, o⟩)
      | [_] => (.error .StackUnderflow, ⟨[], h, o⟩)
      | [] => (.error .StackUnderflow, ⟨[], h, o⟩) := by
  rcases s with _ | ⟨x, _ | ⟨y, rest⟩⟩
  · simp [calculate, bind_apply, pop_nil]
  · simp [calculate, bind_apply, pop_nil, pop_cons]
  · cases hr : pascal (static_cast_int y) (static_cast_int x) <;>
      simp [calculate, bind_apply, pop_cons, call_apply, push_apply, hr]

theorem calculate_unknown (L : Libc) (operation : String) (c : RPNCalculator)
    (h : operation ∉ ["+", "-", "*", "/", "sqrt", "pow", "sin", "cos", "tan", "fib", "pascal"]) :
    calculate L operation c = (.error (.UnknownOperator operation), c) := by
  simp only [List.mem_cons, List.mem_singleton, List.not_mem_nil, or_false, not_or] at h
  obtain ⟨h1, h2, h3, h4, h5, h6, h7, h8, h9, h10, h11⟩ := h
  simp [calculate, h1, h2, h3, h4, h5, h6, h7, h8, h9, h10, h11, raise_apply]


/-- Whatever the operation, `calculate` leaves the history and the output untouched, and
when it throws the stack reached is the stack before with its top `0`, `1` or `2` values
removed. -/
theorem calculate_outcome (L : Libc) (operation : String) (s : List ℚ) (h : List String)
    (o : List Output) :
    ∃ s1, (calculate L operation ⟨s, h, o⟩).2 = ⟨s1, h, o⟩ ∧
      ∀ e, (calculate L operation ⟨s, h, o⟩).1 = .error e → ∃ j, j ≤ 2 ∧ s1 = s.drop j := by
  by_cases hop : operation ∈
      ["+", "-", "*", "/", "sqrt", "pow", "sin", "cos", "tan", "fib", "pascal"]
  · simp only [List.mem_cons, List.mem_singleton, List.not_mem_nil, or_false] at hop
    rcases hop with rfl | rfl | rfl | rfl | rfl | rfl | rfl | rfl | rfl | rfl | rfl
    all_goals
      first
      | rw [calculate_add]
      | rw [calculate_sub]
      | rw [calculate_mul]
      | rw [calculate_div]
      | rw [calculate_sqrt]
      | rw [calculate_pow]
      | rw [calculate_sin]
      | rw [calculate_cos]
      | rw [calculate_tan]
      | rw [calculate_fib]
      | rw [calculate_pascal]
    all_goals rcases s with _ | ⟨x, _ | ⟨y, rest⟩⟩
    all_goals dsimp only
    all_goals try split
    all_goals refine ⟨_, rfl, ?_⟩
    all_goals intro e he
    all_goals
      first
      | exact ⟨0, by omega, rfl⟩
      | exact ⟨1, by omega, rfl⟩
      | exact ⟨2, by omega, rfl⟩
      | cases he
  · rw [calculate_unknown L operation _ hop]
    exact ⟨s, rfl, fun e _ => ⟨0, by omega, rfl⟩⟩

/-- A token of `evaluate` leaves the history untouched, and when it throws, the output
is untouched too and the stack reached is the stack before with its top `0`, `1` or `2`
values removed. -/
theorem evaluateToken_outcome (L : Libc) (token : String) (s : List ℚ) (h : List String)
    (o : List Output) :
    (evaluateToken L token ⟨s, h, o⟩).2.history = h ∧
      ∀ e, (evaluateToken L token ⟨s, h, o⟩).1 = .error e →
        ∃ j, j ≤ 2 ∧ (evaluateToken L token ⟨s, h, o⟩).2 = ⟨s.drop j, h, o⟩ := by
  unfold evaluateToken
  cases parseNumber L token with
  | some value => exact ⟨rfl, fun e he => by cases he⟩
  | none =>
    dsimp only
    by_cases h1 : token = "clear"
    · rw [if_pos h1, clear_apply]
      exact ⟨rfl, fun e he => by cases he⟩
    · rw [if_neg h1]
      by_cases h2 : token = "display"
      · rw [if_pos h2]
        refine ⟨?_, fun e he => ?_⟩
        · unfold display
          dsimp only
          split <;> rfl
        · unfold display at he
          dsimp only at he
          split at he <;> cases he
      · rw [if_neg h2]
        obtain ⟨s1, hs1, hdrop⟩ := calculate_outcome L token s h o
        refine ⟨by rw [hs1], fun e he => ?_⟩
        obtain ⟨j, hj, rfl⟩ := hdrop e he
        exact ⟨j, hj, hs1⟩

/-- The loop of `evaluate` leaves the history untouched. -/
theorem evaluateLoop_history (L : Libc) (ts : List String) (c : RPNCalculator) :
    (evaluateLoop L ts c).2.history = c.history := by
  induction ts generalizing c with
  | nil => rfl
  | cons token rest ih =>
    rw [evaluateLoop_cons]
    have hstep := (evaluateToken_outcome L token c.dataStack c.history c.cout).1
    rcases hres : evaluateToken L token c with ⟨r, c1⟩
    have hc : (⟨c.dataStack, c.history, c.cout⟩ : RPNCalculator) = c := rfl
    rw [hc, hres] at hstep
    cases r with
    | error e => exact hstep
    | ok u =>
      dsimp only
      rw [ih c1]
      exact hstep


/-- The history after one call of `evaluate`: one entry more, made of the line and the
result, when the call returns; unchanged when it throws. -/
theorem evaluate_history (L : Libc) (line : String) (c : RPNCalculator) :
    (evaluate L line c).2.history =
      match (evaluate L line c).1 with
      | .ok result => c.history ++ [line ++ " = " ++ L.to_string result]
      | .error _ => c.history := by
  have hh := evaluateLoop_history L (tokens line) c
  rcases hloop : evaluateLoop L (tokens line) c with ⟨r, c2⟩
  rw [hloop] at hh
  cases r with
  | error e =>
    rw [evaluate_of_loop_error L line c c2 e hloop]
    exact hh
  | ok u =>
    obtain ⟨s2, h2, o2⟩ := c2
    cases s2 with
    | nil =>
      rw [evaluate_of_loop_ok_nil L line c h2 o2 hloop]
      exact hh
    | cons value rest =>
      rw [evaluate_of_loop_ok_cons L line c value rest h2 o2 hloop]
      dsimp only at hh ⊢
      rw [hh]

/-- The entries that a session adds to the history: one per call that returned, in call
order, made of the line and the result. -/
theorem evaluateAll_history (L : Libc) (lines : List String) (c : RPNCalculator) :
    (evaluateAll L lines c).2.history =
      c.history ++ (List.zip lines (evaluateAll L lines c).1).filterMap (fun lr =>
        match lr.2 with
        | .ok result => some (lr.1 ++ " = " ++ L.to_string result)
        | .error _ => none) := by
  induction lines generalizing c with
  | nil => simp [evaluateAll]
  | cons line rest ih =>
    simp only [evaluateAll, List.zip_cons_cons, List.filterMap_cons]
    rw [ih (evaluate L line c).2, evaluate_history L line c]
    cases (evaluate L line c).1 <;> simp


/-- The outcomes of a session: one per line, and the history grows by one entry per
call that returned. -/
theorem evaluateAll_count (L : Libc) (lines : List String) (c : RPNCalculator) :
    (evaluateAll L lines c).1.length = lines.length ∧
    (evaluateAll L lines c).2.history.length =
      c.history.length + ((evaluateAll L lines c).1.filter Except.isOk).length := by
  induction lines generalizing c with
  | nil => simp [evaluateAll]
  | cons line rest ih =>
    obtain ⟨ih1, ih2⟩ := ih (evaluate L line c).2
    simp only [evaluateAll, List.length_cons, ih1, true_and]
    rw [ih2, evaluate_history L line c]
    cases (evaluate L line c).1 with
    | error e => simp [Except.isOk, Except.toBool, List.filter_cons]
    | ok result =>
      simp [Except.isOk, Except.toBool, List.filter_cons]
      omega


/-! ## The concrete standard library: lemmas -/

theorem parseNumber_decimal_none (token : String)
    (h : stodUnsigned (stodSign token.toList).2 = none) :
    parseNumber decimalLibc token = none := by
  simp only [parseNumber, decimalLibc, stodDecimal, h]

theorem parseNumber_decimal_natural (token : String) (digits : Nat)
    (hsign : stodSign token.toList = (false, token.toList))
    (h : stodUnsigned token.toList = some (digits, 0, 0, token.utf8ByteSize)) :
    parseNumber decimalLibc token = some (digits : ℚ) := by
  have hd : stodDecimal token = some ((digits : ℚ), token.utf8ByteSize) := by
    unfold stodDecimal
    rw [hsign]
    simp only [h]
    simp
  simp only [parseNumber, decimalLibc, hd]
  simp

theorem tokens_1_0_div : tokens "1 0 /" = ["1", "0", "/"] := by decide

theorem parseNumber_0 : parseNumber decimalLibc "0" = some 0 := by
  simpa using parseNumber_decimal_natural "0" 0 (by decide) (by decide)

theorem parseNumber_1 : parseNumber decimalLibc "1" = some 1 := by
  simpa using parseNumber_decimal_natural "1" 1 (by decide) (by decide)

theorem parseNumber_3 : parseNumber decimalLibc "3" = some 3 := by
  simpa using parseNumber_decimal_natural "3" 3 (by decide) (by decide)

theorem parseNumber_5 : parseNumber decimalLibc "5" = some 5 := by
  simpa using parseNumber_decimal_natural "5" 5 (by decide) (by decide)

theorem parseNumber_plus : parseNumber decimalLibc "+" = none :=
  parseNumber_decimal_none "+" (by decide)

theorem parseNumber_minus : parseNumber decimalLibc "-" = none :=
  parseNumber_decimal_none "-" (by decide)

theorem parseNumber_div : parseNumber decimalLibc "/" = none :=
  parseNumber_decimal_none "/" (by decide)

theorem tokens_5_5_plus : tokens "5 5 +" = ["5", "5", "+"] := by decide

theorem tokens_5_3_minus : tokens "5 3 -" = ["5", "3", "-"] := by decide

/-- The loop of `evaluate` on `1 0`: both literals are pushed. -/
theorem evaluateLoop_1_0 (s : List ℚ) (h : List String) (o : List Output) :
    evaluateLoop decimalLibc ["1", "0"] ⟨s, h, o⟩ = (.ok (), ⟨0 :: 1 :: s, h, o⟩) := by
  simp [evaluateLoop_cons, evaluateLoop_nil, evaluateToken, parseNumber_0, parseNumber_1,
    push_apply]

/-- The token `/` on a stack with a zero on top: the zero is popped and `/` throws. -/
theorem evaluateToken_div_zero (a : ℚ) (s : List ℚ) (h : List String) (o : List Output) :
    evaluateToken decimalLibc "/" ⟨0 :: a :: s, h, o⟩ =
      (.error .DivisionByZero, ⟨a :: s, h, o⟩) := by
  simp [evaluateToken, parseNumber_div, calculate_div]

/-- The loop of `evaluate` on `1 0 /`: `/` pops the zero and throws. -/
theorem evaluateLoop_1_0_div (s : List ℚ) (h : List String) (o : List Output) :
    evaluateLoop decimalLibc ["1", "0", "/"] ⟨s, h, o⟩ =
      (.error .DivisionByZero, ⟨1 :: s, h, o⟩) := by
  have happ := evaluateLoop_append decimalLibc ["1", "0"] ["/"] ⟨s, h, o⟩
  rw [evaluateLoop_1_0] at happ
  simp only [List.cons_append, List.nil_append] at happ
  rw [happ, evaluateLoop_cons, evaluateToken_div_zero]

/-- The loop of `evaluate` on `5 5 +`. -/
theorem evaluateLoop_5_5_plus (s : List ℚ) (h : List String) (o : List Output) :
    evaluateLoop decimalLibc ["5", "5", "+"] ⟨s, h, o⟩ = (.ok (), ⟨10 :: s, h, o⟩) := by
  simp [evaluateLoop_cons, evaluateLoop_nil, evaluateToken, parseNumber_5, parseNumber_plus,
    push_apply, calculate_add]
  norm_num

/-- The loop of `evaluate` on `5 3 -`. -/
theorem evaluateLoop_5_3_minus (s : List ℚ) (h : List String) (o : List Output) :
    evaluateLoop decimalLibc ["5", "3", "-"] ⟨s, h, o⟩ = (.ok (), ⟨2 :: s, h, o⟩) := by
  simp [evaluateLoop_cons, evaluateLoop_nil, evaluateToken, parseNumber_5, parseNumber_3,
    parseNumber_minus, push_apply, calculate_sub]
  norm_num

/-- The call `evaluate` on `1 0 /`: it throws `DivisionByZero`, the `1` stays on the stack. -/
theorem evaluate_1_0_div (s : List ℚ) (h : List String) (o : List Output) :
    evaluate decimalLibc "1 0 /" ⟨s, h, o⟩ = (.error .DivisionByZero, ⟨1 :: s, h, o⟩) :=
  evaluate_of_loop_error decimalLibc "1 0 /" _ _ _
    (by rw [tokens_1_0_div]; exact evaluateLoop_1_0_div s h o)

/-- The call `evaluate` on `5 5 +`: it returns `10` and records the line. -/
theorem evaluate_5_5_plus (s : List ℚ) (h : List String) (o : List Output) :
    evaluate decimalLibc "5 5 +" ⟨s, h, o⟩ =
      (.ok 10, ⟨10 :: s, h ++ ["5 5 +" ++ " = " ++ decimalLibc.to_string 10], o⟩) :=
  evaluate_of_loop_ok_cons decimalLibc "5 5 +" _ 10 s h o
    (by rw [tokens_5_5_plus]; exact evaluateLoop_5_5_plus s h o)

/-- The call `evaluate` on `5 3 -`: it returns `2` and records the line. -/
theorem evaluate_5_3_minus (s : List ℚ) (h : List String) (o : List Output) :
    evaluate decimalLibc "5 3 -" ⟨s, h, o⟩ =
      (.ok 2, ⟨2 :: s, h ++ ["5 3 -" ++ " = " ++ decimalLibc.to_string 2], o⟩) :=
  evaluate_of_loop_ok_cons decimalLibc "5 3 -" _ 2 s h o
    (by rw [tokens_5_3_minus]; exact evaluateLoop_5_3_minus s h o)

/-- A session of three calls on a fresh calculator, the second of which fails: the
outcomes, and the state reached. -/
theorem evaluateAll_session :
    evaluateAll decimalLibc ["5 5 +", "1 0 /", "5 3 -"] .fresh =
      ([.ok 10, .error .DivisionByZero, .ok 2],
        ⟨[2, 1, 10],
          ["5 5 +" ++ " = " ++ decimalLibc.to_string 10,
            "5 3 -" ++ " = " ++ decimalLibc.to_string 2], []⟩) := by
  simp only [evaluateAll, RPNCalculator.fresh, evaluate_5_5_plus, evaluate_1_0_div,
    evaluate_5_3_minus, List.nil_append, List.cons_append]

/-! ## The claims -/

/-- C1: for all integers `n`, `k` with `0 ≤ k ≤ n`, `pascal n k` returns the binomial
coefficient `C(n, k)`, which is the number of `k`-element subsets of an `n`-element set,
the accumulation being exact; every intermediate value of the loop (the accumulator after
any initial part of the iterations) is an integer; and `pascal 5 2` is `10`. -/
theorem pascal_eq_binomial (n k : Int) (hk : 0 ≤ k) (hkn : k ≤ n) :
    pascal n k = .ok (Nat.choose n.toNat k.toNat : ℚ) ∧
    Nat.choose n.toNat k.toNat = (Finset.powersetCard k.toNat (Finset.range n.toNat)).card ∧
    (∀ p : List Int, p <+: forRange 0 (if k > n - k then n - k else k) →
      ∃ z : Int, p.foldl (pascalStep n) 1 = (z : ℚ)) ∧
    pascal 5 2 = .ok 10 := by
  obtain ⟨N, rfl⟩ := Int.eq_ofNat_of_zero_le (le_trans hk hkn)
  obtain ⟨K, rfl⟩ := Int.eq_ofNat_of_zero_le hk
  have hKN : K ≤ N := by exact_mod_cast hkn
  refine ⟨?_, ?_, ?_, ?_⟩
  · have hcond : ¬ ((N : Int) < 0 ∨ (K : Int) < 0 ∨ (K : Int) > N) := by omega
    simp only [pascal, hcond, if_false, Int.toNat_ofNat]
    by_cases hc : (K : Int) > (N : Int) - K
    · simp only [hc, if_true]
      have hsub : (N : Int) - K = ((N - K : Nat) : Int) := by omega
      rw [hsub, pascal_loop_eq_choose N (N - K) (by omega), Nat.choose_symm hKN]
    · simp only [hc, if_false]
      rw [pascal_loop_eq_choose N K hKN]
  · simp [Finset.card_powersetCard]
  · intro p hp
    have hb : ∃ J : Nat, (if (K : Int) > (N : Int) - K then (N : Int) - K else (K : Int)) = (J : Int) ∧ J ≤ N := by
      by_cases hc : (K : Int) > (N : Int) - K
      · exact ⟨N - K, by rw [if_pos hc]; omega, by omega⟩
      · exact ⟨K, by rw [if_neg hc], hKN⟩
    obtain ⟨J, hJ, hJN⟩ := hb
    rw [hJ] at hp
    obtain ⟨hpe, hpl⟩ := prefix_forRange_zero J p hp
    refine ⟨(Nat.choose N p.length : Int), ?_⟩
    have hloop := pascal_loop_eq_choose N p.length (by omega)
    rw [← hpe] at hloop
    rw [hloop]
    simp
  · have h := pascal_loop_eq_choose 5 2 (by norm_num)
    have hcond : ¬ ((5 : Int) < 0 ∨ (2 : Int) < 0 ∨ (2 : Int) > 5) := by omega
    have hc : ¬ ((2 : Int) > 5 - 2) := by omega
    simp only [pascal, hcond, hc, if_false]
    have h2 : (2 : Int) = ((2 : Nat) : Int) := rfl
    have h5 : (5 : Int) = ((5 : Nat) : Int) := rfl
    rw [h2, h5, h]
    norm_num [Nat.choose]

/-- Witness of C1 at `n = 5`, `k = 2`. -/
theorem pascal_eq_binomial_witness :
    pascal 5 2 = .ok (Nat.choose (5 : Int).toNat (2 : Int).toNat : ℚ) :=
  (pascal_eq_binomial 5 2 (by decide) (by decide)).1

/-- C2: for every `int` `n ≥ 0` below `INT_MAX = 2147483647`, so that the counter `i++`
of the loop never overflows, `fibonacci n` returns the `n`-th Fibonacci number `F n`,
where `F 0 = 0`, `F 1 = 1`, `F (m + 2) = F (m + 1) + F m`, the additions being exact; and
`fibonacci 10` is `55`. -/
theorem fibonacci_eq_fibSpec (n : Int) (hn : 0 ≤ n) (_hmax : n < 2147483647) :
    fibonacci n = .ok (fibSpec n.toNat : ℚ) ∧ fibonacci 10 = .ok 55 := by
  have key : ∀ N : Nat, fibonacci (N : Int) = .ok (fibSpec N : ℚ) := by
    intro N
    match N with
    | 0 => simp [fibonacci, fibSpec]
    | 1 => simp [fibonacci, fibSpec]
    | m + 2 =>
      have h0 : ¬ (((m + 2 : Nat) : Int) < 0) := by omega
      have h1 : ¬ (((m + 2 : Nat) : Int) = 0) := by omega
      have h2 : ¬ (((m + 2 : Nat) : Int) = 1) := by omega
      simp only [fibonacci, h0, h1, h2, if_false]
      have hloop := fibonacci_loop (forRange 2 (((m + 2 : Nat) : Int) + 1)) 0
      have hlen : (forRange 2 (((m + 2 : Nat) : Int) + 1)).length = m + 1 := by
        rw [forRange_length]; omega
      rw [hlen] at hloop
      have hinit : (((fibSpec 0 : Nat) : ℚ), ((fibSpec (0 + 1) : Nat) : ℚ)) = ((0 : ℚ), (1 : ℚ)) := by
        simp [fibSpec]
      rw [hinit] at hloop
      rw [hloop]
      have : 0 + (m + 1) + 1 = m + 2 := by omega
      rw [this]
  obtain ⟨N, rfl⟩ := Int.eq_ofNat_of_zero_le hn
  refine ⟨by simpa using key N, ?_⟩
  have h10 := key 10
  have hv : fibSpec 10 = 55 := by decide
  rw [hv] at h10
  exact_mod_cast h10

/-- Witness of C2 at `n = 10`. -/
theorem fibonacci_eq_fibSpec_witness :
    fibonacci 10 = .ok (fibSpec (10 : Int).toNat : ℚ) :=
  (fibonacci_eq_fibSpec 10 (by decide) (by decide)).1

/-- C3: `pascal` is symmetric: for all integers `n`, `k` with `0 ≤ k ≤ n`,
`pascal n k` equals `pascal n (n - k)`. -/
theorem pascal_symmetric (n k : Int) (hk : 0 ≤ k) (hkn : k ≤ n) :
    pascal n k = pascal n (n - k) := by
  have h1 : ¬ (n < 0 ∨ k < 0 ∨ k > n) := by omega
  have h2 : ¬ (n < 0 ∨ n - k < 0 ∨ n - k > n) := by omega
  simp only [pascal, h1, h2, if_false]
  rw [pascal_bound_symm]

/-- Witness of C3 at `n = 7`, `k = 2`. -/
theorem pascal_symmetric_witness : pascal 7 2 = pascal 7 (7 - 2) :=
  pascal_symmetric 7 2 (by decide) (by decide)

/-- C5: on every stack whose top is zero with at least one value beneath it, `/` fails with
`DivisionByZero` and the stack reached is the original one with only the top zero
removed: the left-hand operand and everything beneath it stay. Evaluating `1 0 /` on a
fresh calculator fails with `DivisionByZero` and leaves the stack `[1]`. -/
theorem div_by_zero_keeps_left_operand (L : Libc) (a : ℚ) (rest : List ℚ) (h : List String)
    (o : List Output) :
    calculate L "/" ⟨0 :: a :: rest, h, o⟩ = (.error .DivisionByZero, ⟨a :: rest, h, o⟩) ∧
    evaluate decimalLibc "1 0 /" .fresh = (.error .DivisionByZero, ⟨[1], [], []⟩) := by
  refine ⟨?_, ?_⟩
  · simp [calculate_div]
  · exact evaluate_1_0_div [] [] []

/-- C7: a binary operator takes the top of the stack as its right-hand operand `b` and
the value beneath as its left-hand operand `a`: on the stack `s` with `a` pushed and then
`b` pushed, `+`, `-`, `*` (and `/` when `b ≠ 0`) yield `s` with `a + b`, `a - b`, `a * b`
(`a / b`) on top, `s` itself unchanged. `5 5 +` gives `10`; `5 3 -` gives `2`, not `-2`. -/
theorem binary_operand_order (L : Libc) (s : List ℚ) (a b : ℚ) (h : List String)
    (o : List Output) :
    calculate L "+" (push b (push a ⟨s, h, o⟩).2).2 = (.ok (), ⟨(a + b) :: s, h, o⟩) ∧
    calculate L "-" (push b (push a ⟨s, h, o⟩).2).2 = (.ok (), ⟨(a - b) :: s, h, o⟩) ∧
    calculate L "*" (push b (push a ⟨s, h, o⟩).2).2 = (.ok (), ⟨(a * b) :: s, h, o⟩) ∧
    (b ≠ 0 →
      calculate L "/" (push b (push a ⟨s, h, o⟩).2).2 = (.ok (), ⟨(a / b) :: s, h, o⟩)) ∧
    (evaluate decimalLibc "5 5 +" .fresh).1 = .ok 10 ∧
    (evaluate decimalLibc "5 3 -" .fresh).1 = .ok 2 ∧
    (evaluate decimalLibc "5 3 -" .fresh).1 ≠ .ok (-2) := by
  have h53 := evaluate_5_3_minus [] [] []
  have h55 := evaluate_5_5_plus [] [] []
  refine ⟨?_, ?_, ?_, ?_, ?_, ?_, ?_⟩
  · simp [push_apply, calculate_add]
  · simp [push_apply, calculate_sub]
  · simp [push_apply, calculate_mul]
  · intro hb
    simp [push_apply, calculate_div, hb]
  · exact congrArg Prod.fst h55
  · exact congrArg Prod.fst h53
  · rw [show evaluate decimalLibc "5 3 -" .fresh = _ from h53]
    intro hcontra
    have h2 : (2 : ℚ) = -2 := by
      injection hcontra
    norm_num at h2

/-- Witness of C7: `6 / 3` on the stack `[7]`. -/
theorem binary_operand_order_witness :
    calculate decimalLibc "/" (push 3 (push 6 ⟨[7], [], []⟩).2).2 = (.ok (), ⟨[6 / 3, 7], [], []⟩) :=
  (binary_operand_order decimalLibc [7] 6 3 [] []).2.2.2.1 (by norm_num)

/-- C9: `pop` and `peek` fail with `StackUnderflow` if and only if the stack is empty, in
every state of the calculator (however it was reached); they throw nothing else, and a
failing `pop` or `peek` leaves the whole state, so the stack and the history, unchanged. -/
theorem pop_peek_underflow_iff (c : RPNCalculator) :
    ((pop c).1 = .error .StackUnderflow ↔ c.dataStack = []) ∧
    ((peek c).1 = .error .StackUnderflow ↔ c.dataStack = []) ∧
    (∀ e, (pop c).1 = .error e → e = .StackUnderflow ∧ (pop c).2 = c) ∧
    (∀ e, (peek c).1 = .error e → e = .StackUnderflow ∧ (peek c).2 = c) := by
  obtain ⟨s, h, o⟩ := c
  cases s with
  | nil =>
    refine ⟨by simp [pop_nil], by simp [peek_nil], ?_, ?_⟩
    · intro e he
      rw [pop_nil] at he ⊢
      exact ⟨by injection he with he; exact he.symm, rfl⟩
    · intro e he
      rw [peek_nil] at he ⊢
      exact ⟨by injection he with he; exact he.symm, rfl⟩
  | cons v rest =>
    refine ⟨by simp [pop_cons], by simp [peek_cons], ?_, ?_⟩
    · intro e he
      rw [pop_cons] at he
      cases he
    · intro e he
      rw [peek_cons] at he
      cases he

/-- Witness of C9: `pop` on a calculator whose stack is empty and whose history is not. -/
theorem pop_peek_underflow_iff_witness :
    (pop ⟨[], ["1 = 1.000000"], []⟩).1 = .error .StackUnderflow ∧
    (pop ⟨[], ["1 = 1.000000"], []⟩).2 = ⟨[], ["1 = 1.000000"], []⟩ :=
  ⟨(pop_peek_underflow_iff ⟨[], ["1 = 1.000000"], []⟩).1.mpr rfl,
   ((pop_peek_underflow_iff ⟨[], ["1 = 1.000000"], []⟩).2.2.1 .StackUnderflow rfl).2⟩

/-- C10: the stack is last-in-first-out: for every state with stack `s` and every value
`v`, `push v` succeeds and puts `v` on top of `s`; `pop` after `push v` returns `v` and
leaves exactly the state before the push; `peek` after `push v` returns `v` and leaves
the state unchanged, `v` still on top of `s`. -/
theorem push_pop_peek_lifo (c : RPNCalculator) (v : ℚ) :
    (push v c).1 = .ok () ∧
    (push v c).2 = { c with dataStack := v :: c.dataStack } ∧
    pop (push v c).2 = (.ok v, c) ∧
    peek (push v c).2 = (.ok v, { c with dataStack := v :: c.dataStack }) := by
  obtain ⟨s, h, o⟩ := c
  exact ⟨rfl, rfl, rfl, rfl⟩

/-- C4, as stated, fails: on `1 0 /` from a fresh calculator the tokens `1` and `0` are
processed, leaving the stack `[0, 1]` (top first); the token `/` then fails with
`DivisionByZero`, and the stack after the failed call is `[1]`, not the stack as it stood
before `/`: the failing token has popped the zero. -/
theorem failing_token_changes_stack :
    tokens "1 0 /" = ["1", "0"] ++ "/" :: [] ∧
    evaluateLoop decimalLibc ["1", "0"] .fresh = (.ok (), ⟨[0, 1], [], []⟩) ∧
    (evaluateToken decimalLibc "/" ⟨[0, 1], [], []⟩).1 = .error .DivisionByZero ∧
    (evaluate decimalLibc "1 0 /" .fresh).1 = .error .DivisionByZero ∧
    (evaluate decimalLibc "1 0 /" .fresh).2.dataStack = [1] ∧
    (evaluate decimalLibc "1 0 /" .fresh).2.dataStack ≠
      (⟨[0, 1], [], []⟩ : RPNCalculator).dataStack := by
  have hev : evaluate decimalLibc "1 0 /" .fresh = _ := evaluate_1_0_div [] [] []
  refine ⟨tokens_1_0_div, evaluateLoop_1_0 [] [] [], ?_, ?_, ?_, ?_⟩
  · rw [evaluateToken_div_zero]
  · rw [hev]
  · rw [hev]
  · rw [hev]
    decide

/-- C4, amended: whenever `evaluate` fails at a token `t` (the tokens before `t` are
processed without failure, reaching the state `c1`, and `t` fails), `evaluate` fails with
the failure of `t`, and the state after the failed call is `c1` with the top `0`, `1` or
`2` values of its stack removed (the operands that `t` popped before it failed): nothing
is pushed, and the values beneath, the history and the output are those of `c1`. -/
theorem evaluate_failure_keeps_stack_beneath (L : Libc) (expression : String)
    (c c1 : RPNCalculator) (pre post : List String) (t : String) (e : Error)
    (htokens : tokens expression = pre ++ t :: post)
    (hpre : evaluateLoop L pre c = (.ok (), c1))
    (hfail : (evaluateToken L t c1).1 = .error e) :
    (evaluate L expression c).1 = .error e ∧
    ∃ j, j ≤ 2 ∧
      (evaluate L expression c).2 = { c1 with dataStack := c1.dataStack.drop j } := by
  obtain ⟨s1, h1, o1⟩ := c1
  obtain ⟨j, hj, hstate⟩ := (evaluateToken_outcome L t s1 h1 o1).2 e hfail
  have hloop : evaluateLoop L (tokens expression) c = (.error e, ⟨s1.drop j, h1, o1⟩) := by
    rw [htokens, evaluateLoop_append, hpre]
    dsimp only
    rw [evaluateLoop_cons]
    rcases hres : evaluateToken L t ⟨s1, h1, o1⟩ with ⟨r, c2⟩
    rw [hres] at hfail hstate
    dsimp only at hfail hstate
    subst hfail
    subst hstate
    rfl
  rw [evaluate_of_loop_error L expression c _ e hloop]
  exact ⟨rfl, j, hj, rfl⟩

/-- Witness of C4, amended: `1 0 /` on a fresh calculator. -/
theorem evaluate_failure_keeps_stack_beneath_witness :
    (evaluate decimalLibc "1 0 /" .fresh).1 = .error .DivisionByZero ∧
    ∃ j, j ≤ 2 ∧ (evaluate decimalLibc "1 0 /" .fresh).2 =
      { (⟨[0, 1], [], []⟩ : RPNCalculator) with
        dataStack := (⟨[0, 1], [], []⟩ : RPNCalculator).dataStack.drop j } :=
  evaluate_failure_keeps_stack_beneath decimalLibc "1 0 /" .fresh ⟨[0, 1], [], []⟩
    ["1", "0"] [] "/" .DivisionByZero tokens_1_0_div (evaluateLoop_1_0 [] [] [])
    (by rw [evaluateToken_div_zero])

/-- C6, as stated, fails: the stack `[0]` holds fewer values than the arity `2` of `/`,
and `/` on it fails with `DivisionByZero`, not with `StackUnderflow`. -/
theorem div_on_single_zero_not_underflow :
    (⟨[0], [], []⟩ : RPNCalculator).dataStack.length < 2 ∧
    calculate decimalLibc "/" ⟨[0], [], []⟩ = (.error .DivisionByZero, ⟨[], [], []⟩) ∧
    (calculate decimalLibc "/" ⟨[0], [], []⟩).1 ≠ .error .StackUnderflow := by
  have hcalc : calculate decimalLibc "/" ⟨[0], [], []⟩ = (.error .DivisionByZero, ⟨[], [], []⟩) := by
    simp [calculate_div]
  refine ⟨by decide, hcalc, ?_⟩
  rw [hcalc]
  intro hcontra
  cases hcontra

/-- C6, amended: an arity violation surfaces as `StackUnderflow`, except for `/` on a
single zero. For `+`, `-`, `*`, `pow`, `pascal` on a stack of fewer than two values, and
for `sqrt`, `sin`, `cos`, `tan`, `fib` on an empty stack, the operator fails with
`StackUnderflow`; `/` on the empty stack or on a single value that is not zero fails
with `StackUnderflow`; `/` on the stack holding a single zero fails with
`DivisionByZero`. -/
theorem arity_violation_outcome (L : Libc) (operation : String) (c : RPNCalculator) :
    (operation ∈ ["+", "-", "*", "pow", "pascal"] → c.dataStack.length < 2 →
      (calculate L operation c).1 = .error .StackUnderflow) ∧
    (operation ∈ ["sqrt", "sin", "cos", "tan", "fib"] → c.dataStack.length < 1 →
      (calculate L operation c).1 = .error .StackUnderflow) ∧
    (c.dataStack.length < 2 → c.dataStack ≠ [0] →
      (calculate L "/" c).1 = .error .StackUnderflow) ∧
    (c.dataStack = [0] → (calculate L "/" c).1 = .error .DivisionByZero) := by
  obtain ⟨s, h, o⟩ := c
  refine ⟨?_, ?_, ?_, ?_⟩
  · intro hop hlen
    simp only [List.mem_cons, List.mem_singleton, List.not_mem_nil, or_false] at hop
    rcases s with _ | ⟨x, _ | ⟨y, rest⟩⟩
    · rcases hop with rfl | rfl | rfl | rfl | rfl <;>
        simp [calculate_add, calculate_sub, calculate_mul, calculate_pow, calculate_pascal]
    · rcases hop with rfl | rfl | rfl | rfl | rfl <;>
        simp [calculate_add, calculate_sub, calculate_mul, calculate_pow, calculate_pascal]
    · simp only [List.length_cons] at hlen
      omega
  · intro hop hlen
    simp only [List.mem_cons, List.mem_singleton, List.not_mem_nil, or_false] at hop
    rcases s with _ | ⟨x, rest⟩
    · rcases hop with rfl | rfl | rfl | rfl | rfl <;>
        simp [calculate_sqrt, calculate_sin, calculate_cos, calculate_tan, calculate_fib]
    · simp at hlen
  · intro hlen hne
    rcases s with _ | ⟨x, _ | ⟨y, rest⟩⟩
    · simp [calculate_div]
    · have hx : x ≠ 0 := fun hx => hne (by rw [hx])
      simp [calculate_div, hx]
    · simp only [List.length_cons] at hlen
      omega
  · intro hs
    dsimp only at hs
    subst hs
    simp [calculate_div]

/-- Witness of C6, amended: `+` on a one-value stack, `sqrt` on the empty stack, `/` on
the stack `[3]` and `/` on the stack `[0]`. -/
theorem arity_violation_outcome_witness :
    (calculate decimalLibc "+" ⟨[1], [], []⟩).1 = .error .StackUnderflow ∧
    (calculate decimalLibc "sqrt" ⟨[], [], []⟩).1 = .error .StackUnderflow ∧
    (calculate decimalLibc "/" ⟨[3], [], []⟩).1 = .error .StackUnderflow ∧
    (calculate decimalLibc "/" ⟨[0], [], []⟩).1 = .error .DivisionByZero :=
  ⟨(arity_violation_outcome decimalLibc "+" ⟨[1], [], []⟩).1 (by simp) (by decide),
   (arity_violation_outcome decimalLibc "sqrt" ⟨[], [], []⟩).2.1 (by simp) (by decide),
   (arity_violation_outcome decimalLibc "/" ⟨[3], [], []⟩).2.2.1 (by decide) (by simp),
   (arity_violation_outcome decimalLibc "/" ⟨[0], [], []⟩).2.2.2 rfl⟩

/-- C8: after any sequence of `evaluate` calls on a fresh calculator (failed calls may be
interleaved), the history has exactly as many entries as calls succeeded, and its entries
are, in call order, those of the successful calls, each made of the original line and the
returned result (`line = result`, the result as `std::to_string` prints it). A successful
`evaluate` appends exactly one entry at the end and leaves the earlier ones unchanged; a
failed `evaluate` leaves the history unchanged. -/
theorem history_records_successful_calls (L : Libc) (lines : List String) :
    (evaluateAll L lines .fresh).1.length = lines.length ∧
    (evaluateAll L lines .fresh).2.history.length =
      ((evaluateAll L lines .fresh).1.filter Except.isOk).length ∧
    (evaluateAll L lines .fresh).2.history =
      (List.zip lines (evaluateAll L lines .fresh).1).filterMap (fun lr =>
        match lr.2 with
        | .ok result => some (lr.1 ++ " = " ++ L.to_string result)
        | .error _ => none) ∧
    (∀ (line : String) (c : RPNCalculator) (result : ℚ),
      (evaluate L line c).1 = .ok result →
        (evaluate L line c).2.history = c.history ++ [line ++ " = " ++ L.to_string result]) ∧
    (∀ (line : String) (c : RPNCalculator) (e : Error),
      (evaluate L line c).1 = .error e → (evaluate L line c).2.history = c.history) := by
  refine ⟨(evaluateAll_count L lines .fresh).1, ?_, ?_, ?_, ?_⟩
  · have h := (evaluateAll_count L lines .fresh).2
    simpa [RPNCalculator.fresh] using h
  · have h := evaluateAll_history L lines .fresh
    simpa [RPNCalculator.fresh] using h
  · intro line c result hres
    rw [evaluate_history, hres]
  · intro line c e hres
    rw [evaluate_history, hres]

/-- Witness of C8: the successful call `5 5 +` on a fresh calculator appends its entry,
the failed call `1 0 /` appends none, and the session `5 5 +`, `1 0 /`, `5 3 -` leaves
two entries. -/
theorem history_records_successful_calls_witness :
    (evaluate decimalLibc "5 5 +" .fresh).2.history =
      RPNCalculator.fresh.history ++ ["5 5 +" ++ " = " ++ decimalLibc.to_string 10] ∧
    (evaluate decimalLibc "1 0 /" .fresh).2.history = RPNCalculator.fresh.history ∧
    (evaluateAll decimalLibc ["5 5 +", "1 0 /", "5 3 -"] .fresh).2.history.length = 2 :=
  ⟨(history_records_successful_calls decimalLibc []).2.2.2.1 "5 5 +" .fresh 10
      (congrArg Prod.fst (evaluate_5_5_plus [] [] [])),
   (history_records_successful_calls decimalLibc []).2.2.2.2 "1 0 /" .fresh .DivisionByZero
      (congrArg Prod.fst (evaluate_1_0_div [] [] [])),
   (history_records_successful_calls decimalLibc ["5 5 +", "1 0 /", "5 3 -"]).2.1.trans
      (by rw [evaluateAll_session]; rfl)⟩


/-! ## The concrete standard library: more tokens -/

theorem parseNumber_decimal_prefix (token : String) (digits fractionLength : Nat)
    (exponent : Int) (taken : Nat)
    (h : stodUnsigned (stodSign token.toList).2 =
      some (digits, fractionLength, exponent, taken))
    (hne : (token.toList.length - (stodSign token.toList).2.length) + taken ≠
      token.utf8ByteSize) :
    parseNumber decimalLibc token = none := by
  simp only [parseNumber, decimalLibc, stodDecimal, h]
  rw [if_neg hne]

theorem parseNumber_2 : parseNumber decimalLibc "2" = some 2 := by
  simpa using parseNumber_decimal_natural "2" 2 (by decide) (by decide)

theorem parseNumber_abc : parseNumber decimalLibc "abc" = none :=
  parseNumber_decimal_none "abc" (by decide)

theorem parseNumber_3abc : parseNumber decimalLibc "3abc" = none :=
  parseNumber_decimal_prefix "3abc" 3 0 0 1 (by decide) (by decide)

theorem parseNumber_clear : parseNumber decimalLibc "clear" = none :=
  parseNumber_decimal_none "clear" (by decide)

theorem parseNumber_display : parseNumber decimalLibc "display" = none :=
  parseNumber_decimal_none "display" (by decide)

theorem parseNumber_pascal : parseNumber decimalLibc "pascal" = none :=
  parseNumber_decimal_none "pascal" (by decide)

theorem parseNumber_fib : parseNumber decimalLibc "fib" = none :=
  parseNumber_decimal_none "fib" (by decide)

/-! ## The claims, continued -/

/-- C11: for every line whose tokens are all processed without failure, reaching the
state `c2`, `evaluate` fails with `EmptyResult` if and only if the stack of `c2` is empty;
otherwise it returns the value on top of that stack without popping it: the stack after
the call is the stack of `c2`, the returned value still on top. -/
theorem evaluate_result_is_top (L : Libc) (expression : String) (c c2 : RPNCalculator)
    (hloop : evaluateLoop L (tokens expression) c = (.ok (), c2)) :
    ((evaluate L expression c).1 = .error .EmptyResult ↔ c2.dataStack = []) ∧
    (∀ e, (evaluate L expression c).1 = .error e → e = .EmptyResult) ∧
    (∀ value rest, c2.dataStack = value :: rest →
      (evaluate L expression c).1 = .ok value ∧
      (evaluate L expression c).2.dataStack = value :: rest) ∧
    (evaluate L expression c).2.dataStack = c2.dataStack := by
  obtain ⟨s2, h2, o2⟩ := c2
  cases s2 with
  | nil =>
    rw [evaluate_of_loop_ok_nil L expression c h2 o2 hloop]
    refine ⟨by simp, ?_, ?_, rfl⟩
    · intro e he
      injection he with he
      exact he.symm
    · intro value rest hs
      cases hs
  | cons v r =>
    rw [evaluate_of_loop_ok_cons L expression c v r h2 o2 hloop]
    refine ⟨by simp, ?_, ?_, rfl⟩
    · intro e he
      cases he
    · intro value rest hs
      dsimp only at hs
      injection hs with hv hr
      subst hv
      subst hr
      exact ⟨rfl, rfl⟩

/-- Witness of C11: `5 5 +` on a fresh calculator returns the top `10` and leaves it on
the stack. -/
theorem evaluate_result_is_top_witness :
    (evaluate decimalLibc "5 5 +" .fresh).1 = .ok 10 ∧
    (evaluate decimalLibc "5 5 +" .fresh).2.dataStack = [10] :=
  (evaluate_result_is_top decimalLibc "5 5 +" .fresh ⟨[10], [], []⟩
    (by rw [tokens_5_5_plus]; exact evaluateLoop_5_5_plus [] [] [])).2.2.1 10 [] rfl

/-- C13: a token that is neither a complete numeric literal (`std::stod` throws, or stops
before the end of the token) nor one of the names `clear`, `display`, `+`, `-`, `*`,
`/`, `sqrt`, `pow`, `sin`, `cos`, `tan`, `fib`, `pascal` fails with `UnknownOperator`
carrying exactly the token, and leaves the whole state, so the stack, unchanged. A token
of which `std::stod` converts only a prefix is not pushed as a number. With the decimal
`std::stod`, `abc` fails with `UnknownOperator "abc"` and `3abc` with
`UnknownOperator "3abc"`, nothing pushed. -/
theorem unknown_token_fails (L : Libc) (token : String) (c : RPNCalculator) :
    (parseNumber L token = none →
      token ∉ ["clear", "display", "+", "-", "*", "/", "sqrt", "pow", "sin", "cos",
        "tan", "fib", "pascal"] →
      evaluateToken L token c = (.error (.UnknownOperator token), c)) ∧
    (∀ value pos, L.stod token = some (value, pos) → pos ≠ token.utf8ByteSize →
      parseNumber L token = none) ∧
    evaluateToken decimalLibc "abc" c = (.error (.UnknownOperator "abc"), c) ∧
    evaluateToken decimalLibc "3abc" c = (.error (.UnknownOperator "3abc"), c) ∧
    evaluate decimalLibc "abc" c = (.error (.UnknownOperator "abc"), c) ∧
    evaluate decimalLibc "3abc" c = (.error (.UnknownOperator "3abc"), c) := by
  have gen : ∀ (L : Libc) (token : String), parseNumber L token = none →
      token ∉ ["clear", "display", "+", "-", "*", "/", "sqrt", "pow", "sin", "cos",
        "tan", "fib", "pascal"] →
      evaluateToken L token c = (.error (.UnknownOperator token), c) := by
    intro L token hnum hname
    have h1 : token ≠ "clear" := fun h => hname (by simp [h])
    have h2 : token ≠ "display" := fun h => hname (by simp [h])
    have h3 : token ∉ ["+", "-", "*", "/", "sqrt", "pow", "sin", "cos", "tan", "fib",
        "pascal"] := by
      intro h
      apply hname
      simp only [List.mem_cons] at h ⊢
      exact Or.inr (Or.inr h)
    simp only [evaluateToken, hnum, if_neg h1, if_neg h2]
    exact calculate_unknown L token c h3
  have habc := gen decimalLibc "abc" parseNumber_abc (by decide)
  have h3abc := gen decimalLibc "3abc" parseNumber_3abc (by decide)
  refine ⟨gen L token, ?_, habc, h3abc, ?_, ?_⟩
  · intro value pos hstod hpos
    simp only [parseNumber, hstod, if_neg hpos]
  · apply evaluate_of_loop_error
    have ht : tokens "abc" = ["abc"] := by decide
    rw [ht, evaluateLoop_cons, habc]
  · apply evaluate_of_loop_error
    have ht : tokens "3abc" = ["3abc"] := by decide
    rw [ht, evaluateLoop_cons, h3abc]

/-- Witness of C13: the token `abc` on the stack `[7]`. -/
theorem unknown_token_fails_witness :
    evaluateToken decimalLibc "abc" ⟨[7], [], []⟩ =
      (.error (.UnknownOperator "abc"), ⟨[7], [], []⟩) :=
  (unknown_token_fails decimalLibc "abc" ⟨[7], [], []⟩).1 parseNumber_abc (by decide)

/-! ## `static_cast<int>`: lemmas -/

/-- The conversion of an integer value is that integer. -/
theorem static_cast_int_intCast (z : Int) : static_cast_int (z : ℚ) = z := by
  simp [static_cast_int]

/-- A rational is at most `-1` exactly when its numerator is at most minus its
denominator. -/
theorem rat_le_neg_one_iff (a : ℚ) : a ≤ -1 ↔ a.num ≤ -(a.den : Int) := by
  have hd : (0 : ℚ) < (a.den : ℚ) := by exact_mod_cast a.den_pos
  have ha : a = (a.num : ℚ) / (a.den : ℚ) := (Rat.num_div_den a).symm
  constructor
  · intro h
    rw [ha, div_le_iff₀ hd] at h
    have h2 : ((a.num : Int) : ℚ) ≤ ((-(a.den : Int) : Int) : ℚ) := by
      push_cast
      linarith
    exact_mod_cast h2
  · intro h
    have h2 : ((a.num : Int) : ℚ) ≤ ((-(a.den : Int) : Int) : ℚ) := by exact_mod_cast h
    push_cast at h2
    rw [ha, div_le_iff₀ hd]
    linarith

/-- A rational is less than `1` exactly when its numerator is less than its
denominator. -/
theorem rat_lt_one_iff (a : ℚ) : a < 1 ↔ a.num < (a.den : Int) := by
  have hd : (0 : ℚ) < (a.den : ℚ) := by exact_mod_cast a.den_pos
  have ha : a = (a.num : ℚ) / (a.den : ℚ) := (Rat.num_div_den a).symm
  constructor
  · intro h
    rw [ha, div_lt_iff₀ hd] at h
    have h2 : ((a.num : Int) : ℚ) < (((a.den : Int) : Int) : ℚ) := by
      push_cast
      linarith
    exact_mod_cast h2
  · intro h
    have h2 : ((a.num : Int) : ℚ) < (((a.den : Int) : Int) : ℚ) := by exact_mod_cast h
    push_cast at h2
    rw [ha, div_lt_iff₀ hd]
    linarith

/-- Truncation toward zero is negative exactly on the values at most `-1`. -/
theorem static_cast_int_neg_iff (a : ℚ) : static_cast_int a < 0 ↔ a ≤ -1 := by
  rw [rat_le_neg_one_iff]
  unfold static_cast_int
  have hd : 0 < a.den := a.den_pos
  rcases lt_or_le a.num 0 with hn | hn
  · obtain ⟨m, hm⟩ := Int.eq_ofNat_of_zero_le (show 0 ≤ -a.num by omega)
    have hnum : a.num = -(m : Int) := by omega
    rw [hnum, Int.neg_tdiv, ← Int.ofNat_tdiv]
    have hdiv : 0 < m / a.den ↔ a.den ≤ m := Nat.div_pos_iff (by omega)
    constructor
    · intro h
      have : 0 < m / a.den := by omega
      have := hdiv.mp this
      omega
    · intro h
      have : a.den ≤ m := by omega
      have := hdiv.mpr this
      omega
  · have h0 : 0 ≤ a.num.tdiv (a.den : Int) := Int.tdiv_nonneg hn (by omega)
    constructor
    · intro h
      omega
    · intro h
      omega

/-- Truncation toward zero sends every value strictly between `-1` and `1` to `0`. -/
theorem static_cast_int_eq_zero (a : ℚ) (hlo : -1 < a) (hhi : a < 1) :
    static_cast_int a = 0 := by
  have h1 : ¬ a.num ≤ -(a.den : Int) := fun h => absurd ((rat_le_neg_one_iff a).mpr h) (by linarith)
  have h2 : a.num < (a.den : Int) := (rat_lt_one_iff a).mp hhi
  unfold static_cast_int
  rcases lt_or_le a.num 0 with hn | hn
  · have hneg : (-a.num).tdiv (a.den : Int) = 0 :=
      Int.tdiv_eq_zero_of_lt (by omega) (by omega)
    rw [Int.neg_tdiv] at hneg
    omega
  · exact Int.tdiv_eq_zero_of_lt hn h2

/-! ## `pascal` and `fib` on concrete lines -/

theorem pascal_5_2 : pascal 5 2 = .ok 10 := by
  have h := pascal_loop_eq_choose 5 2 (by norm_num)
  have hcond : ¬ ((5 : Int) < 0 ∨ (2 : Int) < 0 ∨ (2 : Int) > 5) := by omega
  have hc : ¬ ((2 : Int) > 5 - 2) := by omega
  simp only [pascal, hcond, hc, if_false]
  have h2 : (2 : Int) = ((2 : Nat) : Int) := rfl
  have h5 : (5 : Int) = ((5 : Nat) : Int) := rfl
  rw [h2, h5, h]
  norm_num [Nat.choose]

theorem pascal_2_5 : pascal 2 5 = .error (.DomainError pascalMessage) := by
  simp [pascal]

theorem static_cast_int_2 : static_cast_int 2 = 2 := by
  simpa using static_cast_int_intCast 2

theorem static_cast_int_5 : static_cast_int 5 = 5 := by
  simpa using static_cast_int_intCast 5

theorem tokens_5_2_pascal : tokens "5 2 pascal" = ["5", "2", "pascal"] := by decide

theorem tokens_2_5_pascal : tokens "2 5 pascal" = ["2", "5", "pascal"] := by decide

/-- The call `evaluate` on `5 2 pascal`: it returns `10`. -/
theorem evaluate_5_2_pascal (s : List ℚ) (h : List String) (o : List Output) :
    evaluate decimalLibc "5 2 pascal" ⟨s, h, o⟩ =
      (.ok 10, ⟨10 :: s, h ++ ["5 2 pascal" ++ " = " ++ decimalLibc.to_string 10], o⟩) := by
  apply evaluate_of_loop_ok_cons
  rw [tokens_5_2_pascal]
  simp [evaluateLoop_cons, evaluateLoop_nil, evaluateToken, parseNumber_5, parseNumber_2,
    parseNumber_pascal, push_apply, calculate_pascal, static_cast_int_2, static_cast_int_5,
    pascal_5_2]

/-- The call `evaluate` on `2 5 pascal`: `pascal` pops both operands and throws. -/
theorem evaluate_2_5_pascal (s : List ℚ) (h : List String) (o : List Output) :
    evaluate decimalLibc "2 5 pascal" ⟨s, h, o⟩ =
      (.error (.DomainError pascalMessage), ⟨s, h, o⟩) := by
  apply evaluate_of_loop_error
  rw [tokens_2_5_pascal]
  simp [evaluateLoop_cons, evaluateToken, parseNumber_5, parseNumber_2,
    parseNumber_pascal, push_apply, calculate_pascal, static_cast_int_2, static_cast_int_5,
    pascal_2_5]

/-! ## The claims: `pascal` and `fib` as operators -/

/-- C14: the operator `pascal` pops `k` from the top and then `n` from beneath it. On
every stack `s` with an integer `n` pushed and then an integer `k` pushed, both within
the range of `int` (where `static_cast<int>` gives them back), `pascal` fails if and only
if `n < 0` or `k < 0` or `k > n`, the failure is a `DomainError`, and otherwise it yields
`s` with the value of `pascal n k` pushed in place of the two operands. `5 2 pascal`
gives `10`; `2 5 pascal` fails with `DomainError`. -/
theorem pascal_operator (L : Libc) (s : List ℚ) (h : List String) (o : List Output)
    (n k : Int)
    (_hn : -2147483648 ≤ n ∧ n ≤ 2147483647) (_hk : -2147483648 ≤ k ∧ k ≤ 2147483647) :
    ((∃ e, (calculate L "pascal" (push (k : ℚ) (push (n : ℚ) ⟨s, h, o⟩).2).2).1 = .error e) ↔
      (n < 0 ∨ k < 0 ∨ k > n)) ∧
    (∀ e, (calculate L "pascal" (push (k : ℚ) (push (n : ℚ) ⟨s, h, o⟩).2).2).1 = .error e →
      e.isDomainError = true ∧ e = .DomainError pascalMessage) ∧
    (¬ (n < 0 ∨ k < 0 ∨ k > n) →
      ∃ r, pascal n k = .ok r ∧
        calculate L "pascal" (push (k : ℚ) (push (n : ℚ) ⟨s, h, o⟩).2).2 =
          (.ok (), ⟨r :: s, h, o⟩)) ∧
    (evaluate decimalLibc "5 2 pascal" .fresh).1 = .ok 10 ∧
    (evaluate decimalLibc "2 5 pascal" .fresh).1 = .error (.DomainError pascalMessage) := by
  have hcalc : calculate L "pascal" (push (k : ℚ) (push (n : ℚ) ⟨s, h, o⟩).2).2 =
      match pascal n k with
      | .ok r => (.ok (), ⟨r :: s, h, o⟩)
      | .error e => (.error e, ⟨s, h, o⟩) := by
    simp only [push_apply, calculate_pascal, static_cast_int_intCast]
  rw [hcalc]
  by_cases hc : n < 0 ∨ k < 0 ∨ k > n
  · have hp : pascal n k = .error (.DomainError pascalMessage) := by
      simp only [pascal, hc, if_true]
    rw [hp]
    refine ⟨⟨fun _ => hc, fun _ => ⟨_, rfl⟩⟩, ?_, fun hn => absurd hc hn, ?_, ?_⟩
    · intro e he
      injection he with he
      subst he
      exact ⟨rfl, rfl⟩
    · exact congrArg Prod.fst (evaluate_5_2_pascal [] [] [])
    · exact congrArg Prod.fst (evaluate_2_5_pascal [] [] [])
  · have hp : ∃ r, pascal n k = .ok r := by
      simp only [pascal, hc, if_false]
      exact ⟨_, rfl⟩
    obtain ⟨r, hr⟩ := hp
    rw [hr]
    refine ⟨⟨fun ⟨e, he⟩ => (by cases he), fun hn => absurd hn hc⟩, ?_, fun _ => ⟨r, rfl, rfl⟩,
      ?_, ?_⟩
    · intro e he
      cases he
    · exact congrArg Prod.fst (evaluate_5_2_pascal [] [] [])
    · exact congrArg Prod.fst (evaluate_2_5_pascal [] [] [])

/-- Witness of C14: `pascal` on `6`, `2` pushed on the stack `[7]`, and on `2`, `6`. -/
theorem pascal_operator_witness :
    (∃ r, pascal 6 2 = .ok r ∧
      calculate decimalLibc "pascal" (push ((2 : Int) : ℚ) (push ((6 : Int) : ℚ) ⟨[7], [], []⟩).2).2 =
        (.ok (), ⟨r :: [7], [], []⟩)) ∧
    (∃ e, (calculate decimalLibc "pascal"
      (push ((6 : Int) : ℚ) (push ((2 : Int) : ℚ) ⟨[7], [], []⟩).2).2).1 = .error e) :=
  ⟨(pascal_operator decimalLibc [7] [] [] 6 2 (by decide) (by decide)).2.2.1 (by omega),
   (pascal_operator decimalLibc [7] [] [] 2 6 (by decide) (by decide)).1.mpr (by omega)⟩

/-- C15: the operator `fib` uses `n`, its operand `a` truncated toward zero, and fails
with `DomainError` exactly when `n < 0`. For every operand `a` within the range of `int`
(the values whose truncation is an `int`), `fib` fails if and only if `a ≤ -1`, the
failure is the `DomainError` of `fibonacci`, and for `-1 < a < 1` it succeeds and pushes
`0` in place of `a`; so `-0.5` is accepted and gives `0`. -/
theorem fib_operator_domain (L : Libc) (s : List ℚ) (h : List String) (o : List Output)
    (a : ℚ) (_hrange : -2147483649 < a ∧ a < 2147483648) :
    ((∃ e, (calculate L "fib" ⟨a :: s, h, o⟩).1 = .error e) ↔ static_cast_int a < 0) ∧
    ((∃ e, (calculate L "fib" ⟨a :: s, h, o⟩).1 = .error e) ↔ a ≤ -1) ∧
    (∀ e, (calculate L "fib" ⟨a :: s, h, o⟩).1 = .error e →
      e = .DomainError fibonacciMessage) ∧
    (-1 < a → a < 1 → calculate L "fib" ⟨a :: s, h, o⟩ = (.ok (), ⟨0 :: s, h, o⟩)) ∧
    calculate L "fib" ⟨(-1 / 2) :: s, h, o⟩ = (.ok (), ⟨0 :: s, h, o⟩) := by
  have hzero : ∀ b : ℚ, -1 < b → b < 1 →
      calculate L "fib" ⟨b :: s, h, o⟩ = (.ok (), ⟨0 :: s, h, o⟩) := by
    intro b hlo hhi
    rw [calculate_fib]
    simp [static_cast_int_eq_zero b hlo hhi, fibonacci]
  have hfail : (∃ e, (calculate L "fib" ⟨a :: s, h, o⟩).1 = .error e) ↔
      static_cast_int a < 0 := by
    rw [calculate_fib]
    by_cases hn : static_cast_int a < 0
    · have hf : fibonacci (static_cast_int a) = .error (.DomainError fibonacciMessage) := by
        simp only [fibonacci, hn, if_true]
      simp only [hf]
      exact ⟨fun _ => hn, fun _ => ⟨_, rfl⟩⟩
    · have hf : ∃ r, fibonacci (static_cast_int a) = .ok r := by
        unfold fibonacci
        rw [if_neg hn]
        split_ifs <;> exact ⟨_, rfl⟩
      obtain ⟨r, hr⟩ := hf
      simp only [hr]
      exact ⟨fun ⟨e, he⟩ => (by cases he), fun h0 => absurd h0 hn⟩
  refine ⟨hfail, hfail.trans (static_cast_int_neg_iff a), ?_, hzero a, ?_⟩
  · intro e he
    rw [calculate_fib] at he
    by_cases hn : static_cast_int a < 0
    · have hf : fibonacci (static_cast_int a) = .error (.DomainError fibonacciMessage) := by
        simp only [fibonacci, hn, if_true]
      simp only [hf] at he
      injection he with he
      exact he.symm
    · have hf : ∃ r, fibonacci (static_cast_int a) = .ok r := by
        unfold fibonacci
        rw [if_neg hn]
        split_ifs <;> exact ⟨_, rfl⟩
      obtain ⟨r, hr⟩ := hf
      simp only [hr] at he
      cases he
  · exact hzero (-1 / 2) (by norm_num) (by norm_num)

/-- Witness of C15: the operand `-3/2` on the stack `[7]` is refused, the operand `1/2`
is accepted and gives `0`. -/
theorem fib_operator_domain_witness :
    (∃ e, (calculate decimalLibc "fib" ⟨(-3 / 2) :: [7], [], []⟩).1 = .error e) ∧
    calculate decimalLibc "fib" ⟨(1 / 2) :: [7], [], []⟩ = (.ok (), ⟨0 :: [7], [], []⟩) :=
  ⟨(fib_operator_domain decimalLibc [7] [] [] (-3 / 2) (by norm_num)).2.1.mpr (by norm_num),
   (fib_operator_domain decimalLibc [7] [] [] (1 / 2) (by norm_num)).2.2.2.1
    (by norm_num) (by norm_num)⟩

/-! ## `display`: lemmas -/

/-- The loop of `display` appends the copied stack, top first, to `elements`. -/
theorem displayLoop_eq (temp elements : List ℚ) :
    displayLoop temp elements = elements ++ temp := by
  induction temp generalizing elements with
  | nil => simp [displayLoop]
  | cons top temp ih => simp [displayLoop, ih]

theorem display_apply (s : List ℚ) (h : List String) (o : List Output) :
    display ⟨s, h, o⟩ =
      (.ok (), ⟨s, h, o ++ [if s.isEmpty then .stackEmpty else .stackContents s]⟩) := by
  unfold display
  cases s with
  | nil => rfl
  | cons v rest => simp [displayLoop_eq]

/-- The stack after the values `vs` are pushed in order: the last pushed on top. -/
theorem push_all_stack (vs s : List ℚ) (h : List String) (o : List Output) :
    vs.foldl (fun c v => (push v c).2) ⟨s, h, o⟩ = ⟨vs.reverse ++ s, h, o⟩ := by
  induction vs generalizing s with
  | nil => rfl
  | cons v vs ih =>
    rw [List.foldl_cons, push_apply, ih]
    simp

/-! ## The claims: `display` -/

/-- C16: `display` is non-destructive and idempotent. On every state it succeeds, leaves
the stack, `size` and the history unchanged, and writes one message: the current values
from top to bottom, or the notice that the stack is empty when there is none. After the
values `vs` are pushed in order, the values written are `vs` reversed. Two consecutive
calls write the same message twice. A `display` token in an evaluated line (a token that
`std::stod` does not convert) does exactly what `display` does. -/
theorem display_non_destructive (L : Libc) (s : List ℚ) (h : List String)
    (o : List Output) :
    display ⟨s, h, o⟩ =
      (.ok (), ⟨s, h, o ++ [if s.isEmpty then .stackEmpty else .stackContents s]⟩) ∧
    size (display ⟨s, h, o⟩).2 = size ⟨s, h, o⟩ ∧
    (∀ vs : List ℚ, vs ≠ [] →
      (display (vs.foldl (fun c v => (push v c).2) ⟨[], h, o⟩)).2.cout =
        o ++ [.stackContents vs.reverse]) ∧
    display (display ⟨s, h, o⟩).2 =
      (.ok (), ⟨s, h, o ++ [if s.isEmpty then .stackEmpty else .stackContents s] ++
        [if s.isEmpty then .stackEmpty else .stackContents s]⟩) ∧
    (parseNumber L "display" = none →
      evaluateToken L "display" ⟨s, h, o⟩ = display ⟨s, h, o⟩) ∧
    evaluateToken decimalLibc "display" ⟨[2, 1], h, o⟩ =
      (.ok (), ⟨[2, 1], h, o ++ [.stackContents [2, 1]]⟩) := by
  refine ⟨display_apply s h o, ?_, ?_, ?_, ?_, ?_⟩
  · rw [display_apply]
    rfl
  · intro vs hvs
    rw [push_all_stack, display_apply]
    simp [hvs]
  · rw [display_apply, display_apply]
  · intro hnum
    simp [evaluateToken, hnum]
  · simp [evaluateToken, parseNumber_display, display_apply]

/-- Witness of C16: the values `1`, `2`, `3` pushed in order are displayed as `3`, `2`,
`1`, and the token `display` of the decimal library is the call `display`. -/
theorem display_non_destructive_witness :
    (display ([1, 2, 3].foldl (fun c v => (push v c).2) ⟨[], [], []⟩)).2.cout =
      [] ++ [.stackContents [1, 2, 3].reverse] ∧
    evaluateToken decimalLibc "display" ⟨[3, 2, 1], [], []⟩ = display ⟨[3, 2, 1], [], []⟩ :=
  ⟨(display_non_destructive decimalLibc [] [] []).2.2.1 [1, 2, 3] (by simp),
   (display_non_destructive decimalLibc [3, 2, 1] [] []).2.2.2.2.1 parseNumber_display⟩

/-! ## The stack decides: the history and the output do not influence a token -/

/-- The outcome of an operator and the stack it leaves depend on the stack only. -/
theorem calculate_stack_only (L : Libc) (operation : String) (s : List ℚ)
    (h h1 : List String) (o o1 : List Output) :
    (calculate L operation ⟨s, h, o⟩).1 = (calculate L operation ⟨s, h1, o1⟩).1 ∧
    (calculate L operation ⟨s, h, o⟩).2.dataStack =
      (calculate L operation ⟨s, h1, o1⟩).2.dataStack := by
  by_cases hf : operation = "fib"
  · subst hf
    rw [calculate_fib, calculate_fib]
    rcases s with _ | ⟨x, rest⟩
    · exact ⟨rfl, rfl⟩
    · dsimp only
      cases fibonacci (static_cast_int x) <;> exact ⟨rfl, rfl⟩
  by_cases hp : operation = "pascal"
  · subst hp
    rw [calculate_pascal, calculate_pascal]
    rcases s with _ | ⟨x, _ | ⟨y, rest⟩⟩
    · exact ⟨rfl, rfl⟩
    · exact ⟨rfl, rfl⟩
    · dsimp only
      cases pascal (static_cast_int y) (static_cast_int x) <;> exact ⟨rfl, rfl⟩
  by_cases hop : operation ∈ ["+", "-", "*", "/", "sqrt", "pow", "sin", "cos", "tan"]
  · simp only [List.mem_cons, List.mem_singleton, List.not_mem_nil, or_false] at hop
    rcases hop with rfl | rfl | rfl | rfl | rfl | rfl | rfl | rfl | rfl
    all_goals
      first
      | rw [calculate_add, calculate_add]
      | rw [calculate_sub, calculate_sub]
      | rw [calculate_mul, calculate_mul]
      | rw [calculate_div, calculate_div]
      | rw [calculate_sqrt, calculate_sqrt]
      | rw [calculate_pow, calculate_pow]
      | rw [calculate_sin, calculate_sin]
      | rw [calculate_cos, calculate_cos]
      | rw [calculate_tan, calculate_tan]
    all_goals rcases s with _ | ⟨x, _ | ⟨y, rest⟩⟩
    all_goals dsimp only
    all_goals try split_ifs
    all_goals exact ⟨rfl, rfl⟩
  · have hall : operation ∉
        ["+", "-", "*", "/", "sqrt", "pow", "sin", "cos", "tan", "fib", "pascal"] := by
      intro hmem
      simp only [List.mem_cons, List.mem_singleton, List.not_mem_nil, or_false] at hmem hop
      tauto
    rw [calculate_unknown L operation _ hall, calculate_unknown L operation _ hall]
    exact ⟨rfl, rfl⟩

/-- The outcome of a token and the stack it leaves depend on the stack only. -/
theorem evaluateToken_stack_only (L : Libc) (token : String) (s : List ℚ)
    (h h1 : List String) (o o1 : List Output) :
    (evaluateToken L token ⟨s, h, o⟩).1 = (evaluateToken L token ⟨s, h1, o1⟩).1 ∧
    (evaluateToken L token ⟨s, h, o⟩).2.dataStack =
      (evaluateToken L token ⟨s, h1, o1⟩).2.dataStack := by
  unfold evaluateToken
  cases parseNumber L token with
  | some value => exact ⟨rfl, rfl⟩
  | none =>
    dsimp only
    by_cases hc1 : token = "clear"
    · rw [if_pos hc1, clear_apply, clear_apply]
      exact ⟨rfl, rfl⟩
    · rw [if_neg hc1]
      by_cases hc2 : token = "display"
      · rw [if_pos hc2, display_apply, display_apply]
        exact ⟨rfl, rfl⟩
      · rw [if_neg hc2]
        exact calculate_stack_only L token s _ _ _ _

/-- The outcome of the loop of `evaluate` and the stack it leaves depend on the tokens
and on the stack only. -/
theorem evaluateLoop_stack_only (L : Libc) (ts : List String) (c c1 : RPNCalculator)
    (hs : c.dataStack = c1.dataStack) :
    (evaluateLoop L ts c).1 = (evaluateLoop L ts c1).1 ∧
    (evaluateLoop L ts c).2.dataStack = (evaluateLoop L ts c1).2.dataStack := by
  induction ts generalizing c c1 with
  | nil => exact ⟨rfl, hs⟩
  | cons token rest ih =>
    obtain ⟨s, h, o⟩ := c
    obtain ⟨s1, h1, o1⟩ := c1
    dsimp only at hs
    subst hs
    obtain ⟨hr, hst⟩ := evaluateToken_stack_only L token s h h1 o o1
    rw [evaluateLoop_cons, evaluateLoop_cons]
    rcases hA : evaluateToken L token ⟨s, h, o⟩ with ⟨rA, cA⟩
    rcases hB : evaluateToken L token ⟨s, h1, o1⟩ with ⟨rB, cB⟩
    rw [hA, hB] at hr hst
    dsimp only at hr hst
    subst hr
    cases rA with
    | error e => exact ⟨rfl, hst⟩
    | ok u => exact ih cA cB hst

/-- The outcome of `evaluate` and the stack it leaves, from the outcome of its loop. -/
theorem evaluate_of_loop (L : Libc) (expression : String) (c : RPNCalculator) :
    (evaluate L expression c).1 =
      (match evaluateLoop L (tokens expression) c with
      | (.error e, _) => .error e
      | (.ok _, c2) =>
        match c2.dataStack with
        | [] => .error .EmptyResult
        | value :: _ => .ok value) ∧
    (evaluate L expression c).2.dataStack =
      (evaluateLoop L (tokens expression) c).2.dataStack := by
  rcases hloop : evaluateLoop L (tokens expression) c with ⟨r, c2⟩
  cases r with
  | error e =>
    rw [evaluate_of_loop_error L expression c c2 e hloop]
    exact ⟨rfl, rfl⟩
  | ok u =>
    obtain ⟨s2, h2, o2⟩ := c2
    cases s2 with
    | nil =>
      rw [evaluate_of_loop_ok_nil L expression c h2 o2 hloop]
      exact ⟨rfl, rfl⟩
    | cons value rest =>
      rw [evaluate_of_loop_ok_cons L expression c value rest h2 o2 hloop]
      exact ⟨rfl, rfl⟩

/-- The outcome of `evaluate` and the stack it leaves are decided by the outcome of its
loop and the stack the loop leaves. -/
theorem evaluate_congr_loop (L : Libc) (line line1 : String) (c c1 : RPNCalculator)
    (hr : (evaluateLoop L (tokens line) c).1 = (evaluateLoop L (tokens line1) c1).1)
    (hst : (evaluateLoop L (tokens line) c).2.dataStack =
      (evaluateLoop L (tokens line1) c1).2.dataStack) :
    (evaluate L line c).1 = (evaluate L line1 c1).1 ∧
    (evaluate L line c).2.dataStack = (evaluate L line1 c1).2.dataStack := by
  obtain ⟨hA1, hA2⟩ := evaluate_of_loop L line c
  obtain ⟨hB1, hB2⟩ := evaluate_of_loop L line1 c1
  rw [hA1, hA2, hB1, hB2]
  refine ⟨?_, hst⟩
  rcases hA : evaluateLoop L (tokens line) c with ⟨rA, cA⟩
  rcases hB : evaluateLoop L (tokens line1) c1 with ⟨rB, cB⟩
  rw [hA, hB] at hr hst
  dsimp only at hr hst
  subst hr
  cases rA with
  | error e => rfl
  | ok u =>
    dsimp only
    rw [hst]

/-- The outcome of `evaluate` and the stack it leaves depend on the tokens of the line
and on the stack only. -/
theorem evaluate_stack_only (L : Libc) (line line1 : String) (c c1 : RPNCalculator)
    (ht : tokens line = tokens line1) (hs : c.dataStack = c1.dataStack) :
    (evaluate L line c).1 = (evaluate L line1 c1).1 ∧
    (evaluate L line c).2.dataStack = (evaluate L line1 c1).2.dataStack := by
  obtain ⟨hr, hst⟩ := evaluateLoop_stack_only L (tokens line) c c1 hs
  rw [ht] at hr hst
  nth_rewrite 1 [← ht] at hr
  nth_rewrite 1 [← ht] at hst
  exact evaluate_congr_loop L line line1 c c1 hr hst

/-! ## Tokens of a concatenation -/

/-- The tokens of `xs`, a whitespace character, `ys`: those of `xs`, then those of `ys`. -/
theorem tokensAux_append_space (xs ys : List Char) (sp : Char) (hsp : isspace sp = true)
    (token : List Char) :
    tokensAux (xs ++ sp :: ys) token = tokensAux xs token ++ tokensAux ys [] := by
  induction xs generalizing token with
  | nil =>
    simp only [List.nil_append, tokensAux, hsp, if_true]
    split_ifs <;> simp
  | cons ch xs ih =>
    simp only [List.cons_append, tokensAux]
    by_cases hch : isspace ch = true
    · simp only [hch, if_true]
      split_ifs
      · exact ih []
      · exact congrArg (List.cons (String.mk token)) (ih [])
    · simp only [hch]
      exact ih (token ++ [ch])

/-- The tokens of the line `l1`, a space, `l2`: those of `l1`, then those of `l2`. -/
theorem tokens_append_space (l1 l2 : String) :
    tokens (l1 ++ " " ++ l2) = tokens l1 ++ tokens l2 := by
  unfold tokens
  have h : (l1 ++ " " ++ l2).toList = l1.toList ++ ' ' :: l2.toList := by
    simp [String.toList]
  rw [h]
  exact tokensAux_append_space l1.toList l2.toList ' ' (by decide) []

/-! ## The claims: composition of lines, and `clear` -/

theorem tokens_5_5_plus_5_3_minus :
    tokens ("5 5 +" ++ " " ++ "5 3 -") = ["5", "5", "+", "5", "3", "-"] := by decide

theorem tokens_clear_line :
    tokens "5 5 + clear 5 3 -" = ["5", "5", "+"] ++ "clear" :: ["5", "3", "-"] := by decide

/-- C17: multi-line composition. For every initial state and all lines `l1`, `l2` such
that `evaluate l1` succeeds, evaluating `l1` and then `l2` gives the same outcome for the
last call (the same returned value or the same failure) and the same final stack as a
single `evaluate` of the line `l1`, a space, `l2` from the same initial state. -/
theorem two_lines_as_one (L : Libc) (l1 l2 : String) (c : RPNCalculator) (v : ℚ)
    (hok : (evaluate L l1 c).1 = .ok v) :
    (evaluate L l2 (evaluate L l1 c).2).1 = (evaluate L (l1 ++ " " ++ l2) c).1 ∧
    (evaluate L l2 (evaluate L l1 c).2).2.dataStack =
      (evaluate L (l1 ++ " " ++ l2) c).2.dataStack := by
  obtain ⟨h1r, h1s⟩ := evaluate_of_loop L l1 c
  rcases hloop : evaluateLoop L (tokens l1) c with ⟨r1, c1⟩
  rw [hloop] at h1r h1s
  cases r1 with
  | error e =>
    rw [hok] at h1r
    cases h1r
  | ok u =>
    have hjoin : evaluateLoop L (tokens (l1 ++ " " ++ l2)) c = evaluateLoop L (tokens l2) c1 := by
      rw [tokens_append_space, evaluateLoop_append, hloop]
    obtain ⟨hr, hst⟩ := evaluateLoop_stack_only L (tokens l2) (evaluate L l1 c).2 c1 h1s
    rw [← hjoin] at hr hst
    exact evaluate_congr_loop L l2 (l1 ++ " " ++ l2) (evaluate L l1 c).2 c hr hst

/-- Witness of C17: the lines `5 5 +` and `5 3 -` on a fresh calculator. -/
theorem two_lines_as_one_witness :
    (evaluate decimalLibc "5 3 -" (evaluate decimalLibc "5 5 +" .fresh).2).1 =
      (evaluate decimalLibc ("5 5 +" ++ " " ++ "5 3 -") .fresh).1 ∧
    (evaluate decimalLibc "5 3 -" (evaluate decimalLibc "5 5 +" .fresh).2).2.dataStack =
      (evaluate decimalLibc ("5 5 +" ++ " " ++ "5 3 -") .fresh).2.dataStack :=
  two_lines_as_one decimalLibc "5 5 +" "5 3 -" .fresh 10
    (congrArg Prod.fst (evaluate_5_5_plus [] [] []))

/-- C20: `clear` erases all dependence on the earlier state. Take a line with a `clear`
token (a token that `std::stod` does not convert), `pre` the tokens before it and `post`
the tokens after it, and two initial states from both of which no token of `pre` fails.
Then the outcome of `evaluate` (returned value or failure) and the final stack are the
same from both states, and they are those of evaluating a line made of the tokens `post`
alone on an empty stack. This holds for every `clear` of the line, so for the last. -/
theorem clear_erases_earlier_state (L : Libc) (line line1 : String)
    (pre post : List String) (cA cB c0 : RPNCalculator)
    (hclear : parseNumber L "clear" = none)
    (htokens : tokens line = pre ++ "clear" :: post)
    (hA : (evaluateLoop L pre cA).1 = .ok ())
    (hB : (evaluateLoop L pre cB).1 = .ok ())
    (hpost : tokens line1 = post) (h0 : c0.dataStack = []) :
    (evaluate L line cA).1 = (evaluate L line cB).1 ∧
    (evaluate L line cA).2.dataStack = (evaluate L line cB).2.dataStack ∧
    (evaluate L line cA).1 = (evaluate L line1 c0).1 ∧
    (evaluate L line cA).2.dataStack = (evaluate L line1 c0).2.dataStack := by
  have key : ∀ c : RPNCalculator, (evaluateLoop L pre c).1 = .ok () →
      (evaluate L line c).1 = (evaluate L line1 c0).1 ∧
      (evaluate L line c).2.dataStack = (evaluate L line1 c0).2.dataStack := by
    intro c hc
    rcases hpre : evaluateLoop L pre c with ⟨r, c1⟩
    rw [hpre] at hc
    dsimp only at hc
    subst hc
    obtain ⟨s1, h1, o1⟩ := c1
    have hstep : evaluateToken L "clear" ⟨s1, h1, o1⟩ = (.ok (), ⟨[], h1, o1 ++ [.cleared]⟩) := by
      simp [evaluateToken, hclear, clear_apply]
    have hloop : evaluateLoop L (tokens line) c =
        evaluateLoop L post ⟨[], h1, o1 ++ [.cleared]⟩ := by
      rw [htokens, evaluateLoop_append, hpre]
      dsimp only
      rw [evaluateLoop_cons, hstep]
    obtain ⟨hr, hst⟩ := evaluateLoop_stack_only L post ⟨[], h1, o1 ++ [.cleared]⟩ c0 h0.symm
    rw [← hloop] at hr hst
    rw [← hpost] at hr hst
    exact evaluate_congr_loop L line line1 c c0 hr hst
  obtain ⟨hA1, hA2⟩ := key cA hA
  obtain ⟨hB1, hB2⟩ := key cB hB
  exact ⟨hA1.trans hB1.symm, hA2.trans hB2.symm, hA1, hA2⟩

/-- Witness of C20: the line `5 5 + clear 5 3 -` from a fresh calculator and from the
stack `[7]`, against the line `5 3 -` on an empty stack. -/
theorem clear_erases_earlier_state_witness :
    (evaluate decimalLibc "5 5 + clear 5 3 -" .fresh).1 =
      (evaluate decimalLibc "5 5 + clear 5 3 -" ⟨[7], [], []⟩).1 ∧
    (evaluate decimalLibc "5 5 + clear 5 3 -" .fresh).2.dataStack =
      (evaluate decimalLibc "5 5 + clear 5 3 -" ⟨[7], [], []⟩).2.dataStack ∧
    (evaluate decimalLibc "5 5 + clear 5 3 -" .fresh).1 =
      (evaluate decimalLibc "5 3 -" .fresh).1 ∧
    (evaluate decimalLibc "5 5 + clear 5 3 -" .fresh).2.dataStack =
      (evaluate decimalLibc "5 3 -" .fresh).2.dataStack :=
  clear_erases_earlier_state decimalLibc "5 5 + clear 5 3 -" "5 3 -" ["5", "5", "+"]
    ["5", "3", "-"] .fresh ⟨[7], [], []⟩ .fresh parseNumber_clear tokens_clear_line
    (congrArg Prod.fst (evaluateLoop_5_5_plus [] [] []))
    (congrArg Prod.fst (evaluateLoop_5_5_plus [7] [] []))
    tokens_5_3_minus rfl

/-! ## `fibonacci` and `pascal`: when they throw -/

theorem fibonacci_of_neg (n : Int) (hn : n < 0) :
    fibonacci n = .error (.DomainError fibonacciMessage) := by
  simp only [fibonacci, hn, if_true]

theorem fibonacci_of_not_neg (n : Int) (hn : ¬ n < 0) : ∃ r, fibonacci n = .ok r := by
  unfold fibonacci
  rw [if_neg hn]
  split_ifs <;> exact ⟨_, rfl⟩

theorem pascal_of_invalid (n k : Int) (hc : n < 0 ∨ k < 0 ∨ k > n) :
    pascal n k = .error (.DomainError pascalMessage) := by
  simp only [pascal, hc, if_true]

theorem pascal_of_valid (n k : Int) (hc : ¬ (n < 0 ∨ k < 0 ∨ k > n)) :
    ∃ r, pascal n k = .ok r := by
  simp only [pascal, hc, if_false]
  exact ⟨_, rfl⟩

/-! ## `calculate`: the cases of success and of failure -/

/-- When an operator succeeds it is a unary operator that has replaced the top of the
stack, or a binary operator that has replaced the top two values by one. -/
theorem calculate_ok_shape (L : Libc) (operation : String) (s : List ℚ) (h : List String)
    (o : List Output) (c1 : RPNCalculator)
    (hok : calculate L operation ⟨s, h, o⟩ = (.ok (), c1)) :
    (operation ∈ ["sqrt", "sin", "cos", "tan", "fib"] ∧
      ∃ a r rest, s = a :: rest ∧ c1 = ⟨r :: rest, h, o⟩) ∨
    (operation ∈ ["+", "-", "*", "/", "pow", "pascal"] ∧
      ∃ b a r rest, s = b :: a :: rest ∧ c1 = ⟨r :: rest, h, o⟩) := by
  by_cases hf : operation = "fib"
  · subst hf
    rw [calculate_fib] at hok
    rcases s with _ | ⟨x, rest⟩
    · cases hok
    · dsimp only at hok
      cases hr : fibonacci (static_cast_int x) with
      | error e =>
        rw [hr] at hok
        cases hok
      | ok r =>
        rw [hr] at hok
        injection hok with _ hc
        exact Or.inl ⟨by simp, x, r, rest, rfl, hc.symm⟩
  by_cases hp : operation = "pascal"
  · subst hp
    rw [calculate_pascal] at hok
    rcases s with _ | ⟨x, _ | ⟨y, rest⟩⟩
    · cases hok
    · cases hok
    · dsimp only at hok
      cases hr : pascal (static_cast_int y) (static_cast_int x) with
      | error e =>
        rw [hr] at hok
        cases hok
      | ok r =>
        rw [hr] at hok
        injection hok with _ hc
        exact Or.inr ⟨by simp, x, y, r, rest, rfl, hc.symm⟩
  by_cases hop : operation ∈ ["+", "-", "*", "/", "sqrt", "pow", "sin", "cos", "tan"]
  · simp only [List.mem_cons, List.mem_singleton, List.not_mem_nil, or_false] at hop
    rcases hop with rfl | rfl | rfl | rfl | rfl | rfl | rfl | rfl | rfl
    all_goals
      first
      | rw [calculate_add] at hok
      | rw [calculate_sub] at hok
      | rw [calculate_mul] at hok
      | rw [calculate_div] at hok
      | rw [calculate_sqrt] at hok
      | rw [calculate_pow] at hok
      | rw [calculate_sin] at hok
      | rw [calculate_cos] at hok
      | rw [calculate_tan] at hok
    all_goals rcases s with _ | ⟨x, _ | ⟨y, rest⟩⟩
    all_goals dsimp only at hok
    all_goals try split_ifs at hok
    all_goals first
      | (cases hok; done)
      | (injection hok with _ hc; subst hc; simp)
  · have hall : operation ∉
        ["+", "-", "*", "/", "sqrt", "pow", "sin", "cos", "tan", "fib", "pascal"] := by
      intro hmem
      simp only [List.mem_cons, List.mem_singleton, List.not_mem_nil, or_false] at hmem hop
      tauto
    rw [calculate_unknown L operation _ hall] at hok
    cases hok

/-- When an operator throws, it is in one of seven situations, each with its exception
and the number of values it has removed from the top of the stack: an unknown operator
(none); a known operator on the empty stack (none); a binary operator on a one-value
stack (one); `/` on a zero top (one); `sqrt` on a negative top (one); `fib` on a top
truncated to a negative index (one); `pascal` on invalid arguments (two). -/
theorem calculate_error_cases (L : Libc) (operation : String) (s : List ℚ)
    (h : List String) (o : List Output) (e : Error) (c1 : RPNCalculator)
    (he : calculate L operation ⟨s, h, o⟩ = (.error e, c1)) :
    (operation ∉ ["+", "-", "*", "/", "sqrt", "pow", "sin", "cos", "tan", "fib", "pascal"] ∧
      e = .UnknownOperator operation ∧ c1 = ⟨s, h, o⟩) ∨
    (operation ∈ ["+", "-", "*", "/", "sqrt", "pow", "sin", "cos", "tan", "fib", "pascal"] ∧
      s = [] ∧ e = .StackUnderflow ∧ c1 = ⟨s, h, o⟩) ∨
    (operation ∈ ["+", "-", "*", "/", "pow", "pascal"] ∧
      ∃ x, s = [x] ∧ c1 = ⟨[], h, o⟩) ∨
    (operation = "/" ∧ ∃ rest, s = 0 :: rest ∧ e = .DivisionByZero ∧ c1 = ⟨rest, h, o⟩) ∨
    (operation = "sqrt" ∧ ∃ a rest, s = a :: rest ∧ a < 0 ∧
      e = .DomainError sqrtMessage ∧ c1 = ⟨rest, h, o⟩) ∨
    (operation = "fib" ∧ ∃ a rest, s = a :: rest ∧ static_cast_int a < 0 ∧
      e = .DomainError fibonacciMessage ∧ c1 = ⟨rest, h, o⟩) ∨
    (operation = "pascal" ∧ ∃ k n rest, s = k :: n :: rest ∧
      (static_cast_int n < 0 ∨ static_cast_int k < 0 ∨ static_cast_int k > static_cast_int n) ∧
      e = .DomainError pascalMessage ∧ c1 = ⟨rest, h, o⟩) := by
  by_cases hf : operation = "fib"
  · subst hf
    rw [calculate_fib] at he
    rcases s with _ | ⟨x, rest⟩
    · injection he with he1 he2
      injection he1 with he1
      subst he1
      subst he2
      simp
    · dsimp only at he
      by_cases hn : static_cast_int x < 0
      · rw [fibonacci_of_neg _ hn] at he
        injection he with he1 he2
        injection he1 with he1
        subst he1
        subst he2
        simp [hn]
      · obtain ⟨r, hr⟩ := fibonacci_of_not_neg _ hn
        rw [hr] at he
        cases he
  by_cases hp : operation = "pascal"
  · subst hp
    rw [calculate_pascal] at he
    rcases s with _ | ⟨x, _ | ⟨y, rest⟩⟩
    · injection he with he1 he2
      injection he1 with he1
      subst he1
      subst he2
      simp
    · injection he with he1 he2
      injection he1 with he1
      subst he1
      subst he2
      simp
    · dsimp only at he
      by_cases hc : static_cast_int y < 0 ∨ static_cast_int x < 0 ∨
          static_cast_int x > static_cast_int y
      · rw [pascal_of_invalid _ _ hc] at he
        injection he with he1 he2
        injection he1 with he1
        subst he1
        subst he2
        refine Or.inr (Or.inr (Or.inr (Or.inr (Or.inr (Or.inr ?_)))))
        exact ⟨rfl, x, y, rest, rfl, hc, rfl, rfl⟩
      · obtain ⟨r, hr⟩ := pascal_of_valid _ _ hc
        rw [hr] at he
        cases he
  by_cases hop : operation ∈ ["+", "-", "*", "/", "sqrt", "pow", "sin", "cos", "tan"]
  · simp only [List.mem_cons, List.mem_singleton, List.not_mem_nil, or_false] at hop
    rcases hop with rfl | rfl | rfl | rfl | rfl | rfl | rfl | rfl | rfl
    all_goals
      first
      | rw [calculate_add] at he
      | rw [calculate_sub] at he
      | rw [calculate_mul] at he
      | rw [calculate_div] at he
      | rw [calculate_sqrt] at he
      | rw [calculate_pow] at he
      | rw [calculate_sin] at he
      | rw [calculate_cos] at he
      | rw [calculate_tan] at he
    all_goals rcases s with _ | ⟨x, _ | ⟨y, rest⟩⟩
    all_goals dsimp only at he
    all_goals try split_ifs at he with hx
    all_goals first
      | (cases he; done)
      | (injection he with he1 he2; injection he1 with he1; subst he1; subst he2; simp; done)
      | (injection he with he1 he2; injection he1 with he1; subst he1; subst he2; simp [hx])
  · have hall : operation ∉
        ["+", "-", "*", "/", "sqrt", "pow", "sin", "cos", "tan", "fib", "pascal"] := by
      intro hmem
      simp only [List.mem_cons, List.mem_singleton, List.not_mem_nil, or_false] at hmem hop
      tauto
    rw [calculate_unknown L operation _ hall] at he
    injection he with he1 he2
    injection he1 with he1
    subst he1
    subst he2
    exact Or.inl ⟨hall, rfl, rfl⟩

/-! ## A token: the cases of success and of failure -/

/-- A token that fails is a token handed to `calculate`. -/
theorem evaluateToken_error_is_calculate (L : Libc) (token : String) (c : RPNCalculator)
    (e : Error) (he : (evaluateToken L token c).1 = .error e) :
    evaluateToken L token c = calculate L token c := by
  obtain ⟨s, h, o⟩ := c
  unfold evaluateToken at he ⊢
  cases hnum : parseNumber L token with
  | some value =>
    rw [hnum] at he
    cases he
  | none =>
    rw [hnum] at he
    dsimp only at he ⊢
    by_cases hc1 : token = "clear"
    · rw [if_pos hc1, clear_apply] at he
      cases he
    · rw [if_neg hc1] at he ⊢
      by_cases hc2 : token = "display"
      · rw [if_pos hc2, display_apply] at he
        cases he
      · rw [if_neg hc2]

/-- A token that succeeds is a literal that has been pushed, `clear`, `display`, a unary
operator that has replaced the top, or a binary operator that has replaced the top two
values by one. -/
theorem evaluateToken_ok_cases (L : Libc) (token : String) (s : List ℚ) (h : List String)
    (o : List Output) (c1 : RPNCalculator)
    (hok : evaluateToken L token ⟨s, h, o⟩ = (.ok (), c1)) :
    (∃ value, parseNumber L token = some value ∧ c1 = ⟨value :: s, h, o⟩) ∨
    (parseNumber L token = none ∧ token = "clear" ∧ c1 = ⟨[], h, o ++ [.cleared]⟩) ∨
    (parseNumber L token = none ∧ token = "display" ∧
      c1 = ⟨s, h, o ++ [if s.isEmpty then .stackEmpty else .stackContents s]⟩) ∨
    (parseNumber L token = none ∧ token ∈ ["sqrt", "sin", "cos", "tan", "fib"] ∧
      ∃ a r rest, s = a :: rest ∧ c1 = ⟨r :: rest, h, o⟩) ∨
    (parseNumber L token = none ∧ token ∈ ["+", "-", "*", "/", "pow", "pascal"] ∧
      ∃ b a r rest, s = b :: a :: rest ∧ c1 = ⟨r :: rest, h, o⟩) := by
  unfold evaluateToken at hok
  cases hnum : parseNumber L token with
  | some value =>
    rw [hnum] at hok
    dsimp only at hok
    rw [push_apply] at hok
    injection hok with _ hc
    exact Or.inl ⟨value, rfl, hc.symm⟩
  | none =>
    rw [hnum] at hok
    dsimp only at hok
    by_cases hc1 : token = "clear"
    · rw [if_pos hc1, clear_apply] at hok
      injection hok with _ hc
      exact Or.inr (Or.inl ⟨rfl, hc1, hc.symm⟩)
    · rw [if_neg hc1] at hok
      by_cases hc2 : token = "display"
      · rw [if_pos hc2, display_apply] at hok
        injection hok with _ hc
        exact Or.inr (Or.inr (Or.inl ⟨rfl, hc2, hc.symm⟩))
      · rw [if_neg hc2] at hok
        rcases calculate_ok_shape L token s h o c1 hok with hu | hb
        · exact Or.inr (Or.inr (Or.inr (Or.inl ⟨rfl, hu⟩)))
        · exact Or.inr (Or.inr (Or.inr (Or.inr ⟨rfl, hb⟩)))

/-- The depth of the stack after the tokens of a line without `clear`, all processed
without failure: one more per literal, one less per binary operator. -/
theorem evaluateLoop_depth (L : Libc) (ts : List String) (c c1 : RPNCalculator)
    (hok : evaluateLoop L ts c = (.ok (), c1)) (hclear : "clear" ∉ ts) :
    size c1 + ts.countP (fun t => (parseNumber L t).isNone &&
        decide (t ∈ ["+", "-", "*", "/", "pow", "pascal"])) =
      size c + ts.countP (fun t => (parseNumber L t).isSome) := by
  induction ts generalizing c with
  | nil =>
    rw [evaluateLoop_nil] at hok
    injection hok with _ hc
    subst hc
    simp
  | cons token rest ih =>
    obtain ⟨s, h, o⟩ := c
    rw [evaluateLoop_cons] at hok
    rcases hstep : evaluateToken L token ⟨s, h, o⟩ with ⟨r, c2⟩
    rw [hstep] at hok
    cases r with
    | error e => cases hok
    | ok u =>
      dsimp only at hok
      have hrest : "clear" ∉ rest := fun hm => hclear (List.mem_cons_of_mem _ hm)
      have htok : token ≠ "clear" := fun hm => hclear (by simp [hm])
      have hih := ih c2 hok hrest
      rw [List.countP_cons, List.countP_cons]
      generalize List.countP (fun t => (parseNumber L t).isNone &&
        decide (t ∈ ["+", "-", "*", "/", "pow", "pascal"])) rest = q at hih ⊢
      generalize List.countP (fun t => (parseNumber L t).isSome) rest = p at hih ⊢
      rcases evaluateToken_ok_cases L token s h o c2 hstep with
        ⟨value, hnum, hc⟩ | ⟨_, hcl, _⟩ | ⟨hnum, hd, hc⟩ | ⟨hnum, hu, a, r, rest1, hs, hc⟩ |
        ⟨hnum, hb, b, a, r, rest1, hs, hc⟩
      · subst hc
        simp only [size, List.length_cons] at hih ⊢
        simp only [hnum, Option.isNone_some, Option.isSome_some, Bool.false_and, if_true]
        simp
        omega
      · exact absurd hcl htok
      · subst hc
        subst hd
        simp only [size] at hih ⊢
        simp [hnum]
        omega
      · subst hc
        subst hs
        have hnb : token ∉ ["+", "-", "*", "/", "pow", "pascal"] := by
          simp only [List.mem_cons, List.mem_singleton, List.not_mem_nil, or_false] at hu ⊢
          rcases hu with rfl | rfl | rfl | rfl | rfl <;> decide
        simp only [size, List.length_cons] at hih ⊢
        simp [hnum, hnb]
        omega
      · subst hc
        subst hs
        simp only [size, List.length_cons] at hih ⊢
        simp [hnum, hb]
        omega

/-! ## The claims: the effect of a token on the stack -/

/-- C18: the exact effect of a failing token. Whenever a token fails, it is a token handed
to `calculate`, and the state afterwards is the state before with the top `0`, `1` or `2`
values of the stack removed and nothing pushed, everything else unchanged: `0` for an
unknown operator and for a known operator on the empty stack (the first `pop` fails); `1`
for a binary operator on a one-value stack, `/` on a zero top, `sqrt` of a negative,
`fib` of a negative index; `2` for `pascal` on invalid arguments. Every failure is one of
these cases, and each of these cases is a failure with that effect. -/
theorem failing_token_effect (L : Libc) (token : String) (s : List ℚ) (h : List String)
    (o : List Output) :
    (∀ e c1, evaluateToken L token ⟨s, h, o⟩ = (.error e, c1) →
      calculate L token ⟨s, h, o⟩ = (.error e, c1) ∧
      (∃ j, j ≤ 2 ∧ c1 = ⟨s.drop j, h, o⟩) ∧
      ((token ∉ ["+", "-", "*", "/", "sqrt", "pow", "sin", "cos", "tan", "fib", "pascal"] ∧
          e = .UnknownOperator token ∧ c1 = ⟨s, h, o⟩) ∨
        (token ∈ ["+", "-", "*", "/", "sqrt", "pow", "sin", "cos", "tan", "fib", "pascal"] ∧
          s = [] ∧ e = .StackUnderflow ∧ c1 = ⟨s, h, o⟩) ∨
        (token ∈ ["+", "-", "*", "/", "pow", "pascal"] ∧ ∃ x, s = [x] ∧ c1 = ⟨[], h, o⟩) ∨
        (token = "/" ∧ ∃ rest, s = 0 :: rest ∧ e = .DivisionByZero ∧ c1 = ⟨rest, h, o⟩) ∨
        (token = "sqrt" ∧ ∃ a rest, s = a :: rest ∧ a < 0 ∧
          e = .DomainError sqrtMessage ∧ c1 = ⟨rest, h, o⟩) ∨
        (token = "fib" ∧ ∃ a rest, s = a :: rest ∧ static_cast_int a < 0 ∧
          e = .DomainError fibonacciMessage ∧ c1 = ⟨rest, h, o⟩) ∨
        (token = "pascal" ∧ ∃ k n rest, s = k :: n :: rest ∧
          (static_cast_int n < 0 ∨ static_cast_int k < 0 ∨
            static_cast_int k > static_cast_int n) ∧
          e = .DomainError pascalMessage ∧ c1 = ⟨rest, h, o⟩))) ∧
    (token ∉ ["+", "-", "*", "/", "sqrt", "pow", "sin", "cos", "tan", "fib", "pascal"] →
      calculate L token ⟨s, h, o⟩ = (.error (.UnknownOperator token), ⟨s, h, o⟩)) ∧
    (token ∈ ["+", "-", "*", "/", "sqrt", "pow", "sin", "cos", "tan", "fib", "pascal"] →
      calculate L token ⟨[], h, o⟩ = (.error .StackUnderflow, ⟨[], h, o⟩)) ∧
    (token ∈ ["+", "-", "*", "/", "pow", "pascal"] →
      ∀ x, ∃ e, calculate L token ⟨[x], h, o⟩ = (.error e, ⟨[], h, o⟩)) ∧
    (∀ rest, calculate L "/" ⟨0 :: rest, h, o⟩ = (.error .DivisionByZero, ⟨rest, h, o⟩)) ∧
    (∀ a rest, a < 0 →
      calculate L "sqrt" ⟨a :: rest, h, o⟩ = (.error (.DomainError sqrtMessage), ⟨rest, h, o⟩)) ∧
    (∀ a rest, static_cast_int a < 0 →
      calculate L "fib" ⟨a :: rest, h, o⟩ =
        (.error (.DomainError fibonacciMessage), ⟨rest, h, o⟩)) ∧
    (∀ k n rest,
      (static_cast_int n < 0 ∨ static_cast_int k < 0 ∨ static_cast_int k > static_cast_int n) →
      calculate L "pascal" ⟨k :: n :: rest, h, o⟩ =
        (.error (.DomainError pascalMessage), ⟨rest, h, o⟩)) := by
  refine ⟨?_, ?_, ?_, ?_, ?_, ?_, ?_, ?_⟩
  · intro e c1 hfail
    have hcalc : calculate L token ⟨s, h, o⟩ = (.error e, c1) := by
      rw [← evaluateToken_error_is_calculate L token ⟨s, h, o⟩ e (by rw [hfail])]
      exact hfail
    refine ⟨hcalc, ?_, calculate_error_cases L token s h o e c1 hcalc⟩
    obtain ⟨j, hj, hstate⟩ := (evaluateToken_outcome L token s h o).2 e (by rw [hfail])
    rw [hfail] at hstate
    exact ⟨j, hj, hstate⟩
  · intro hname
    exact calculate_unknown L token _ hname
  · intro hname
    simp only [List.mem_cons, List.mem_singleton, List.not_mem_nil, or_false] at hname
    rcases hname with rfl | rfl | rfl | rfl | rfl | rfl | rfl | rfl | rfl | rfl | rfl <;>
      simp [calculate_add, calculate_sub, calculate_mul, calculate_div, calculate_sqrt,
        calculate_pow, calculate_sin, calculate_cos, calculate_tan, calculate_fib,
        calculate_pascal]
  · intro hname x
    simp only [List.mem_cons, List.mem_singleton, List.not_mem_nil, or_false] at hname
    rcases hname with rfl | rfl | rfl | rfl | rfl | rfl
    · exact ⟨_, by rw [calculate_add]⟩
    · exact ⟨_, by rw [calculate_sub]⟩
    · exact ⟨_, by rw [calculate_mul]⟩
    · by_cases hx : x = 0
      · exact ⟨.DivisionByZero, by simp [calculate_div, hx]⟩
      · exact ⟨.StackUnderflow, by simp [calculate_div, hx]⟩
    · exact ⟨_, by rw [calculate_pow]⟩
    · exact ⟨_, by rw [calculate_pascal]⟩
  · intro rest
    cases rest <;> simp [calculate_div]
  · intro a rest ha
    simp [calculate_sqrt, ha]
  · intro a rest ha
    rw [calculate_fib]
    simp only [fibonacci_of_neg _ ha]
  · intro k n rest hc
    rw [calculate_pascal]
    simp only [pascal_of_invalid _ _ hc]

/-- Witness of C18: the token `/` on the stack `[0, 1]` removes one value, and `sqrt` on
the stack `[-4, 7]` removes one value. -/
theorem failing_token_effect_witness :
    calculate decimalLibc "/" ⟨[0, 1], [], []⟩ = (.error .DivisionByZero, ⟨[1], [], []⟩) ∧
    (∃ j, j ≤ 2 ∧ (⟨[1], [], []⟩ : RPNCalculator) = ⟨([0, 1] : List ℚ).drop j, [], []⟩) ∧
    calculate decimalLibc "sqrt" ⟨[-4, 7], [], []⟩ =
      (.error (.DomainError sqrtMessage), ⟨[7], [], []⟩) :=
  ⟨((failing_token_effect decimalLibc "/" [0, 1] [] []).1 .DivisionByZero ⟨[1], [], []⟩
      (evaluateToken_div_zero 1 [] [] [])).1,
   ((failing_token_effect decimalLibc "/" [0, 1] [] []).1 .DivisionByZero ⟨[1], [], []⟩
      (evaluateToken_div_zero 1 [] [] [])).2.1,
   (failing_token_effect decimalLibc "sqrt" [] [] []).2.2.2.2.2.1 (-4) [7] (by norm_num)⟩

/-- C19: stack-depth discipline. A token processed successfully changes `size` by a fixed
amount and touches only the top of the stack: a numeric literal is pushed (`+1`); a unary
operator (`sqrt`, `sin`, `cos`, `tan`, `fib`) replaces the top (`0`); a binary operator
(`+`, `-`, `*`, `/`, `pow`, `pascal`) replaces the top two values by one (`-1`);
`display` leaves the stack (`0`); the values beneath are unchanged. Hence a line without
`clear` that evaluates successfully, with `p` literals and `q` binary operators, leaves
`size` equal to the initial size `+ p - q`. These are all the tokens that can succeed,
but for `clear`, which empties the stack. -/
theorem stack_depth_discipline (L : Libc) :
    (∀ (token : String) (s : List ℚ) (h : List String) (o : List Output)
        (c1 : RPNCalculator),
      evaluateToken L token ⟨s, h, o⟩ = (.ok (), c1) →
        (∀ value, parseNumber L token = some value →
          c1 = ⟨value :: s, h, o⟩ ∧ size c1 = size ⟨s, h, o⟩ + 1) ∧
        (parseNumber L token = none → token ∈ ["sqrt", "sin", "cos", "tan", "fib"] →
          (∃ a r rest, s = a :: rest ∧ c1 = ⟨r :: rest, h, o⟩) ∧ size c1 = size ⟨s, h, o⟩) ∧
        (parseNumber L token = none → token ∈ ["+", "-", "*", "/", "pow", "pascal"] →
          (∃ b a r rest, s = b :: a :: rest ∧ c1 = ⟨r :: rest, h, o⟩) ∧
          size c1 + 1 = size ⟨s, h, o⟩) ∧
        (parseNumber L token = none → token = "display" →
          c1.dataStack = s ∧ size c1 = size ⟨s, h, o⟩)) ∧
    (∀ (token : String) (s : List ℚ) (h : List String) (o : List Output)
        (c1 : RPNCalculator),
      evaluateToken L token ⟨s, h, o⟩ = (.ok (), c1) →
        (parseNumber L token).isSome = true ∨
        (parseNumber L token = none ∧
          token ∈ ["sqrt", "sin", "cos", "tan", "fib", "+", "-", "*", "/", "pow", "pascal",
            "display"]) ∨
        (parseNumber L token = none ∧ token = "clear" ∧ c1.dataStack = [])) ∧
    (∀ (line : String) (c : RPNCalculator) (v : ℚ),
      (evaluate L line c).1 = .ok v → "clear" ∉ tokens line →
        (size (evaluate L line c).2 : Int) =
          (size c : Int) + ((tokens line).countP (fun t => (parseNumber L t).isSome) : Int) -
            ((tokens line).countP (fun t => (parseNumber L t).isNone &&
              decide (t ∈ ["+", "-", "*", "/", "pow", "pascal"])) : Int)) := by
  refine ⟨?_, ?_, ?_⟩
  · intro token s h o c1 hok
    have hcases := evaluateToken_ok_cases L token s h o c1 hok
    refine ⟨?_, ?_, ?_, ?_⟩
    · intro value hnum
      rcases hcases with ⟨v, hv, hc⟩ | ⟨hn, _⟩ | ⟨hn, _⟩ | ⟨hn, _⟩ | ⟨hn, _⟩
      · rw [hnum] at hv
        injection hv with hv
        subst hv
        subst hc
        exact ⟨rfl, rfl⟩
      all_goals (rw [hnum] at hn; cases hn)
    · intro hnum hu
      rcases hcases with ⟨v, hv, _⟩ | ⟨_, hcl, _⟩ | ⟨_, hd, _⟩ | ⟨_, _, a, r, rest, hs, hc⟩ |
        ⟨_, hb, _⟩
      · rw [hnum] at hv
        cases hv
      · subst hcl
        exact absurd hu (by decide)
      · subst hd
        exact absurd hu (by decide)
      · subst hs
        subst hc
        exact ⟨⟨a, r, rest, rfl, rfl⟩, rfl⟩
      · exfalso
        simp only [List.mem_cons, List.mem_singleton, List.not_mem_nil, or_false] at hu hb
        rcases hu with rfl | rfl | rfl | rfl | rfl <;> revert hb <;> decide
    · intro hnum hb
      rcases hcases with ⟨v, hv, _⟩ | ⟨_, hcl, _⟩ | ⟨_, hd, _⟩ | ⟨_, hu, _⟩ |
        ⟨_, _, b, a, r, rest, hs, hc⟩
      · rw [hnum] at hv
        cases hv
      · subst hcl
        exact absurd hb (by decide)
      · subst hd
        exact absurd hb (by decide)
      · exfalso
        simp only [List.mem_cons, List.mem_singleton, List.not_mem_nil, or_false] at hu hb
        rcases hu with rfl | rfl | rfl | rfl | rfl <;> revert hb <;> decide
      · subst hs
        subst hc
        exact ⟨⟨b, a, r, rest, rfl, rfl⟩, rfl⟩
    · intro hnum hd
      rcases hcases with ⟨v, hv, _⟩ | ⟨_, hcl, _⟩ | ⟨_, _, hc⟩ | ⟨_, hu, _⟩ | ⟨_, hb, _⟩
      · rw [hnum] at hv
        cases hv
      · rw [hd] at hcl
        exact absurd hcl (by decide)
      · subst hc
        exact ⟨rfl, rfl⟩
      · subst hd
        exact absurd hu (by decide)
      · subst hd
        exact absurd hb (by decide)
  · intro token s h o c1 hok
    rcases evaluateToken_ok_cases L token s h o c1 hok with
      ⟨v, hv, _⟩ | ⟨hn, hcl, hc⟩ | ⟨hn, hd, _⟩ | ⟨hn, hu, _⟩ | ⟨hn, hb, _⟩
    · exact Or.inl (by rw [hv]; rfl)
    · exact Or.inr (Or.inr ⟨hn, hcl, by rw [hc]⟩)
    · exact Or.inr (Or.inl ⟨hn, by rw [hd]; decide⟩)
    · refine Or.inr (Or.inl ⟨hn, ?_⟩)
      simp only [List.mem_cons, List.mem_singleton, List.not_mem_nil, or_false] at hu ⊢
      tauto
    · refine Or.inr (Or.inl ⟨hn, ?_⟩)
      simp only [List.mem_cons, List.mem_singleton, List.not_mem_nil, or_false] at hb ⊢
      tauto
  · intro line c v hok hclear
    obtain ⟨h1r, h1s⟩ := evaluate_of_loop L line c
    rcases hloop : evaluateLoop L (tokens line) c with ⟨r, c2⟩
    rw [hloop] at h1r h1s
    cases r with
    | error e =>
      rw [hok] at h1r
      cases h1r
    | ok u =>
      have hdepth := evaluateLoop_depth L (tokens line) c c2 hloop hclear
      have hsize : size (evaluate L line c).2 = size c2 := by
        simp only [size, h1s]
      rw [hsize]
      omega

/-- Witness of C19: the token `5` pushes one value, and the line `5 5 +`, with two
literals and one binary operator, leaves the depth of the stack `[7]` one higher. -/
theorem stack_depth_discipline_witness :
    ((⟨[5, 7], [], []⟩ : RPNCalculator) = ⟨5 :: [7], [], []⟩ ∧
      size ⟨[5, 7], [], []⟩ = size ⟨[7], [], []⟩ + 1) ∧
    (size (evaluate decimalLibc "5 5 +" ⟨[7], [], []⟩).2 : Int) =
      (size ⟨[7], [], []⟩ : Int) +
        ((tokens "5 5 +").countP (fun t => (parseNumber decimalLibc t).isSome) : Int) -
        ((tokens "5 5 +").countP (fun t => (parseNumber decimalLibc t).isNone &&
          decide (t ∈ ["+", "-", "*", "/", "pow", "pascal"])) : Int) :=
  ⟨(stack_depth_discipline decimalLibc).1 "5" [7] [] [] ⟨[5, 7], [], []⟩
      (by simp [evaluateToken, parseNumber_5, push_apply]) |>.1 5 parseNumber_5,
   (stack_depth_discipline decimalLibc).2.2 "5 5 +" ⟨[7], [], []⟩ 10
      (congrArg Prod.fst (evaluate_5_5_plus [7] [] [])) (by rw [tokens_5_5_plus]; decide)⟩

/-! ## Blank lines -/

/-- On a line made of the characters of `chars` only, `find_first_not_of` finds nothing. -/
theorem find_first_not_of_blank (chars input : List Char) (i : Nat)
    (hblank : ∀ ch ∈ input, ch ∈ chars) :
    find_first_not_of chars input i = npos := by
  induction input generalizing i with
  | nil => rfl
  | cons ch rest ih =>
    have hch : ch ∈ chars := hblank ch (List.mem_cons_self _ _)
    simp only [find_first_not_of, hch, if_true]
    exact ih (i + 1) (fun x hx => hblank x (List.mem_cons_of_mem _ hx))

/-- The call `evaluate` on a line without tokens: the loop does nothing, so the call
throws `EmptyResult` on an empty stack, and otherwise returns the top of the stack and
records the line. -/
theorem evaluate_no_tokens (L : Libc) (line : String) (s : List ℚ) (h : List String)
    (o : List Output) (ht : tokens line = []) :
    evaluate L line ⟨s, h, o⟩ =
      match s with
      | [] => (.error .EmptyResult, ⟨[], h, o⟩)
      | value :: rest =>
        (.ok value, ⟨value :: rest, h ++ [line ++ " = " ++ L.to_string value], o⟩) := by
  have hloop : evaluateLoop L (tokens line) ⟨s, h, o⟩ = (.ok (), ⟨s, h, o⟩) := by
    rw [ht, evaluateLoop_nil]
  cases s with
  | nil => exact evaluate_of_loop_ok_nil L line _ h o hloop
  | cons value rest => exact evaluate_of_loop_ok_cons L line _ value rest h o hloop

/-! ## The claims: blank lines -/

/-- C12, as stated, fails: `evaluate` on a line without tokens is not a no-op. On a fresh
calculator the empty line reports the error `EmptyResult`; on the stack `[1]` the line of
three spaces returns `1` and appends an entry to the history. -/
theorem evaluate_blank_line_not_no_op :
    tokens "" = [] ∧
    evaluate decimalLibc "" .fresh = (.error .EmptyResult, .fresh) ∧
    tokens "   " = [] ∧
    evaluate decimalLibc "   " ⟨[1], [], []⟩ =
      (.ok 1, ⟨[1], ["   " ++ " = " ++ decimalLibc.to_string 1], []⟩) ∧
    (evaluate decimalLibc "   " ⟨[1], [], []⟩).2.history ≠
      (⟨[1], [], []⟩ : RPNCalculator).history := by
  have h1 : tokens "" = [] := by decide
  have h2 : tokens "   " = [] := by decide
  have e1 := evaluate_no_tokens decimalLibc "" [] [] [] h1
  have e2 := evaluate_no_tokens decimalLibc "   " [1] [] [] h2
  refine ⟨h1, e1, h2, e2, ?_⟩
  rw [e2]
  simp

/-- C12, amended: a blank line is a no-op for the loop of `main`, not for `evaluate`. On
a line made only of spaces, tabs, newlines and carriage returns (the empty line
included), the loop of `main` skips the iteration before it calls `evaluate`: the state
is unchanged, so no history entry, and nothing is reported. The call `evaluate` itself on
a line without tokens leaves the stack unchanged; on an empty stack it throws
`EmptyResult` and leaves the whole state unchanged; on a non-empty stack it returns the
top and appends one history entry. -/
theorem blank_line_skipped_by_main (L : Libc) (line : String) (c : RPNCalculator) :
    ((∀ ch ∈ line.toList, ch ∈ " \t\n\r".toList) → mainLoopBody L line c = (.skipped, c)) ∧
    (tokens line = [] →
      (evaluate L line c).2.dataStack = c.dataStack ∧
      (c.dataStack = [] → evaluate L line c = (.error .EmptyResult, c)) ∧
      (∀ value rest, c.dataStack = value :: rest →
        evaluate L line c =
          (.ok value,
            { c with history := c.history ++ [line ++ " = " ++ L.to_string value] }))) := by
  refine ⟨?_, ?_⟩
  · intro hblank
    have hstart := find_first_not_of_blank " \t\n\r".toList line.toList 0 hblank
    simp only [mainLoopBody, hstart, if_true]
  · intro ht
    obtain ⟨s, h, o⟩ := c
    have hev := evaluate_no_tokens L line s h o ht
    refine ⟨?_, ?_, ?_⟩
    · rw [hev]
      cases s <;> rfl
    · intro hs
      dsimp only at hs
      subst hs
      exact hev
    · intro value rest hs
      dsimp only at hs
      subst hs
      exact hev

/-- Witness of C12, amended: the line of a space and a tab is skipped by the loop of
`main`, and `evaluate` on the empty line throws on a fresh calculator. -/
theorem blank_line_skipped_by_main_witness :
    mainLoopBody decimalLibc " \t" ⟨[1], [], []⟩ = (.skipped, ⟨[1], [], []⟩) ∧
    evaluate decimalLibc "" .fresh = (.error .EmptyResult, .fresh) :=
  ⟨(blank_line_skipped_by_main decimalLibc " \t" ⟨[1], [], []⟩).1 (by decide),
   ((blank_line_skipped_by_main decimalLibc "" .fresh).2 (by decide)).2.1 rfl⟩
end RPN
